import Mathlib

/-!
Verification of the automotive table utilities (gradient coloring, grid
smoothing, blank filling) of the editorjs-table-automotive plugin.

The JavaScript source (src/plugin.js, lines 690-1195) is shallowly embedded
here: cell texts are `String`, JS numbers are `ℚ` (all arithmetic the claims
exercise is exact decimal arithmetic; the transcendental `Math.exp` used by
Gaussian smoothing is modelled as an abstract parameter `kexp : ℚ → ℚ`),
grids are `List (List String)`, and out-of-range array access — which in JS
yields `undefined` — is modelled as `Option.none`.  The in-place mutation of
the freshly copied `result` array is modelled as explicit state passing
through `cellWrite` below.
-/

namespace AutoTable

/-! ## Character-level helpers for the cell-text parser -/

theorem dropWhile_length_le {α : Type} (p : α → Bool) :
    ∀ l : List α, (l.dropWhile p).length ≤ l.length := by
  intro l
  induction l with
  | nil => simp [List.dropWhile]
  | cons a t ih =>
    by_cases h : p a
    · simp [List.dropWhile_cons_of_pos h]; omega
    · simp [List.dropWhile_cons_of_neg h]

/-- Model of the regex replace `content.replace(/<[^>]*>/g, '')`, as a
recursion on explicit fuel so that it reduces structurally: every maximal
span starting at a `<` and running up to the first following `>` is
removed; a `<` with no later `>` is not matched and is kept verbatim.
Every recursive call shortens the list by at least one character while
consuming one unit of fuel, so fuel equal to the length never runs out. -/
def stripTagsF : Nat → List Char → List Char
  | 0, l => l
  | _ + 1, [] => []
  | fuel + 1, c :: rest =>
    if c = '<' then
      if '>' ∈ rest then stripTagsF fuel ((rest.dropWhile (fun d => d ≠ '>')).drop 1)
      else c :: rest
    else c :: stripTagsF fuel rest

def stripTags (l : List Char) : List Char := stripTagsF l.length l

/-- Model of JS `String.prototype.trim` (leading and trailing whitespace
removed). -/
def trimChars (s : List Char) : List Char :=
  ((s.dropWhile Char.isWhitespace).reverse.dropWhile Char.isWhitespace).reverse

/-- The tag-stripped, trimmed text of a cell: the `cleaned` / `text` value
the source computes before interpreting a cell. -/
def cleanedText (s : String) : List Char :=
  trimChars (stripTags s.data)

/-- Digits of a decimal numeral folded into a natural number. -/
def digitsToNat (l : List Char) : Nat :=
  l.foldl (fun a c => 10 * a + (c.toNat - Char.toNat '0')) 0

/-- `10 ^ n` over `ℚ`, by structural recursion so that it reduces in the
kernel. -/
def qpow10 : Nat → ℚ
  | 0 => 1
  | n + 1 => 10 * qpow10 n

/-- `10 ^ e` over `ℚ` for a possibly negative integer exponent. -/
def pow10 (e : ℤ) : ℚ :=
  if 0 ≤ e then qpow10 e.toNat else 1 / qpow10 (-e).toNat

/-- Model of JS `parseFloat` on already-trimmed text: optional sign, integer
digits, optional `.` plus fraction digits, optional exponent part; trailing
garbage is ignored; if no mantissa digit is found the parse fails (`NaN`,
modelled as `none`).  The non-finite parses `parseFloat` can produce from the
literal texts `Infinity`/`-Infinity` have no `ℚ` counterpart and are outside
this model; no claim exercises them. -/
def jsParseFloat (l : List Char) : Option ℚ :=
  let signAndRest : ℚ × List Char :=
    match l with
    | '-' :: r => (-1, r)
    | '+' :: r => (1, r)
    | _ => (1, l)
  let sign := signAndRest.1
  let l1 := signAndRest.2
  let ip := l1.takeWhile Char.isDigit
  let r1 := l1.dropWhile Char.isDigit
  let fracAndRest : List Char × List Char :=
    match r1 with
    | '.' :: r => (r.takeWhile Char.isDigit, r.dropWhile Char.isDigit)
    | _ => ([], r1)
  let fp := fracAndRest.1
  let r2 := fracAndRest.2
  if ip = [] ∧ fp = [] then none
  else
    let mant : ℚ := (digitsToNat ip : ℚ) + (digitsToNat fp : ℚ) / qpow10 fp.length
    let expPart : ℤ :=
      match r2 with
      | 'e' :: r =>
        let esAndRest : ℤ × List Char :=
          match r with
          | '-' :: rr => (-1, rr)
          | '+' :: rr => (1, rr)
          | _ => (1, r)
        let ed := esAndRest.2.takeWhile Char.isDigit
        if ed = [] then 0 else esAndRest.1 * (digitsToNat ed : ℤ)
      | 'E' :: r =>
        let esAndRest : ℤ × List Char :=
          match r with
          | '-' :: rr => (-1, rr)
          | '+' :: rr => (1, rr)
          | _ => (1, r)
        let ed := esAndRest.2.takeWhile Char.isDigit
        if ed = [] then 0 else esAndRest.1 * (digitsToNat ed : ℤ)
      | _ => 0
    some (sign * mant * pow10 expPart)

/-- `parseNumericValue(content)` (plugin.js:744): `undefined`/`null`/empty
content is not numeric; otherwise strip tags, trim, and `parseFloat`. -/
def parseNumericValue (content : Option String) : Option ℚ :=
  match content with
  | none => none
  | some s => if s = "" then none else jsParseFloat (cleanedText s)

/-- The `isEmpty` helper of `autoFillBlanks` (plugin.js:1105): a missing or
falsy cell is empty, as is one whose stripped trimmed text is the empty
string or the literal non-breaking-space entity. -/
def isEmptyCell (content : Option String) : Bool :=
  match content with
  | none => true
  | some s =>
    if s = "" then true
    else
      let cleaned := cleanedText s
      cleaned = [] || cleaned = ('&' :: 'n' :: 'b' :: 's' :: 'p' :: ';' :: [])

/-- The `getDecimalPlaces` helper of `autoFillBlanks` (plugin.js:1112):
on the stripped trimmed text, 0 when there is no dot, otherwise the length
of the segment between the first dot and the next dot (or end of text) —
JS `cleaned.split('.')[1]`. -/
def fillDecimalPlaces (s : String) : Nat :=
  let cleaned := cleanedText s
  if '.' ∈ cleaned then
    (((cleaned.dropWhile (fun c => c ≠ '.')).drop 1).takeWhile (fun c => c ≠ '.')).length
  else 0

/-- The inline decimals computation shared by the three smoothers
(e.g. plugin.js:930): on the RAW cell text, 0 when the raw text has no dot,
otherwise the tag-stripped length of the raw text's segment between the
first dot and the next dot (or end) — JS
`content[i][j].split('.')[1].replace(/<[^>]*>/g, '').length`. -/
def smootherDecimals (s : String) : Nat :=
  if '.' ∈ s.data then
    (stripTags (((s.data.dropWhile (fun c => c ≠ '.')).drop 1).takeWhile (fun c => c ≠ '.'))).length
  else 0

/-- decimalPlaces as the specification's parser contract words it: the
length of the substring after the first dot in the markup-stripped cell
text, or 0 when the stripped text contains no dot.
Modelled from the spec for comparison with the code's computation. -/
def specDecimalPlaces (s : String) : Nat :=
  let t := stripTags s.data
  if '.' ∈ t then ((t.dropWhile (fun c => c ≠ '.')).drop 1).length
  else 0

/-- JS `Math.round`: half-up (toward positive infinity) rounding. -/
def jsRound (x : ℚ) : ℤ := ⌊x + 1 / 2⌋

/-- Decimal digit string of a natural number padded on the left with zeros
to length `d`. -/
def padNatDigits (n d : Nat) : String :=
  let s := toString n
  if s.length < d then String.mk (List.replicate (d - s.length) '0') ++ s else s

/-- Model of JS `Number.prototype.toFixed(d)`: the sign is taken from the
number, the magnitude is rounded to `d` decimal digits with ties away from
zero becoming ties up on the magnitude (ECMA: the larger candidate `n` is
chosen), and the result is rendered with exactly `d` fraction digits. -/
def jsToFixed (x : ℚ) (d : Nat) : String :=
  let sign := if x < 0 then "-" else ""
  let n : Nat := (⌊|x| * qpow10 d + 1 / 2⌋).toNat
  if d = 0 then sign ++ toString n
  else
    let ipart := n / 10 ^ d
    let fpart := n % 10 ^ d
    sign ++ toString ipart ++ "." ++ padNatDigits fpart d

/-! ## Grid model

The nested arrays of cell texts.  JS array indexing out of range yields
`undefined`; `cellAt` models this with `Option.none`.  All four operations
of the source build `result = content.map((row) => [...row])` and then
assign `result[i][j] = ...` inside nested loops that read only `content`;
this imperative pattern is modelled once, as `cellWrite`. -/

abbrev Grid := List (List String)

/-- JS `content[i][j]` (`none` models `undefined`). -/
def cellAt (g : Grid) (i j : Nat) : Option String :=
  g[i]?.bind (fun row => row[j]?)

/-- JS `content[i].length` (0 when row `i` does not exist). -/
def rowLen (g : Grid) (i : Nat) : Nat := (g[i]?.getD []).length

/-- The raw text of cell `(i, j)`, defaulting to the empty string. -/
def rawCell (g : Grid) (i j : Nat) : String := (cellAt g i j).getD ""

/-- Assignment `result[i][j] = v` (a no-op out of range; the source only
assigns at indices that exist in the freshly copied grid). -/
def setCell (g : Grid) (i j : Nat) (v : String) : Grid :=
  g.set i ((g[i]?.getD []).set j v)

theorem length_setCell (g : Grid) (i j : Nat) (v : String) :
    (setCell g i j v).length = g.length := by
  unfold setCell; exact List.length_set ..

theorem rowLen_setCell (g : Grid) (i j : Nat) (v : String) (t : Nat) :
    rowLen (setCell g i j v) t = rowLen g t := by
  unfold rowLen setCell
  rw [List.getElem?_set]
  by_cases h : i = t
  · subst h
    by_cases hl : i < g.length
    · simp [hl]
    · simp only [hl, if_neg, if_pos rfl, if_false]
      rw [List.getElem?_eq_none (Nat.le_of_not_lt hl)]
      rfl
  · simp [h]

theorem cellAt_setCell (g : Grid) (i j : Nat) (v : String) (i' j' : Nat) :
    cellAt (setCell g i j v) i' j' =
      if i' = i ∧ j' = j ∧ i < g.length ∧ j < rowLen g i then some v
      else cellAt g i' j' := by
  by_cases hi : i' = i
  · subst hi
    unfold cellAt setCell rowLen
    by_cases hl : i' < g.length
    · rw [List.getElem?_set, if_pos rfl, if_pos hl, List.getElem?_eq_getElem hl,
        Option.getD_some, Option.some_bind, Option.some_bind]
      rw [List.getElem?_set]
      by_cases hj : j = j'
      · subst hj
        by_cases hjl : j < g[i'].length
        · rw [if_pos rfl, if_pos hjl, if_pos ⟨rfl, rfl, hl, hjl⟩]
        · rw [if_pos rfl, if_neg hjl]
          rw [if_neg (fun hc => hjl hc.2.2.2)]
          rw [List.getElem?_eq_none (Nat.le_of_not_lt hjl)]
      · rw [if_neg hj]
        rw [if_neg (fun hc => hj hc.2.1.symm)]
    · rw [List.getElem?_set, if_pos rfl, if_neg hl]
      rw [if_neg (fun hc => hl hc.2.2.1)]
      rw [List.getElem?_eq_none (Nat.le_of_not_lt hl)]
  · unfold cellAt setCell rowLen
    rw [List.getElem?_set, if_neg (fun h => hi h.symm)]
    rw [if_neg (fun hc => hi hc.1)]

/-- Two grids with the same shape and the same cells are equal. -/
theorem grid_ext {a b : Grid} (hlen : a.length = b.length)
    (hcell : ∀ i j, cellAt a i j = cellAt b i j) : a = b := by
  apply List.ext_getElem?
  intro i
  by_cases hi : i < a.length
  · have hb : i < b.length := hlen ▸ hi
    rw [List.getElem?_eq_getElem hi, List.getElem?_eq_getElem hb]
    have hcells : ∀ j : Nat, (a[i])[j]? = (b[i])[j]? := by
      intro j
      have h := hcell i j
      unfold cellAt at h
      rw [List.getElem?_eq_getElem hi, List.getElem?_eq_getElem hb] at h
      simpa using h
    exact congrArg some (List.ext_getElem? hcells)
  · rw [List.getElem?_eq_none (Nat.le_of_not_lt hi),
      List.getElem?_eq_none (by omega)]

/-- One conditional write of the computed cell text into the result grid:
the body of the inner loops of all four operations, with `f i j = none`
exactly when the source leaves `result[i][j]` untouched. -/
def writeStep (f : Nat → Nat → Option String) (sC i : Nat) (res : Grid) (j : Nat) :
    Grid :=
  if sC ≤ j then
    match f i j with
    | some v => setCell res i j v
    | none => res
  else res

/-- The column loop `for (let j = startCol; j < content[i].length; j++)`. -/
def writeRow (g : Grid) (sC : Nat) (f : Nat → Nat → Option String) (res : Grid)
    (i : Nat) : Grid :=
  (List.range (rowLen g i)).foldl (writeStep f sC i) res

/-- The row loop over the freshly copied result grid: the common imperative
skeleton of `applyMovingAverage`, `applyGaussianSmoothing`,
`applyBilinearInterpolation` and `autoFillBlanks`. -/
def cellWrite (g : Grid) (sR sC : Nat) (f : Nat → Nat → Option String) : Grid :=
  (List.range g.length).foldl
    (fun res i => if sR ≤ i then writeRow g sC f res i else res) g

theorem shape_foldl {β : Type} (step : Grid → β → Grid)
    (h : ∀ r x, (step r x).length = r.length ∧ ∀ t, rowLen (step r x) t = rowLen r t) :
    ∀ (l : List β) (r : Grid),
      (l.foldl step r).length = r.length ∧ ∀ t, rowLen (l.foldl step r) t = rowLen r t := by
  intro l
  induction l with
  | nil => intro r; exact ⟨rfl, fun _ => rfl⟩
  | cons x xs ih =>
    intro r
    obtain ⟨h1, h2⟩ := ih (step r x)
    obtain ⟨h3, h4⟩ := h r x
    exact ⟨by simp only [List.foldl_cons]; omega,
      fun t => by simp only [List.foldl_cons]; rw [h2 t, h4 t]⟩

theorem writeStep_shape (f : Nat → Nat → Option String) (sC i : Nat)
    (res : Grid) (j : Nat) :
    (writeStep f sC i res j).length = res.length ∧
      ∀ t, rowLen (writeStep f sC i res j) t = rowLen res t := by
  unfold writeStep
  by_cases h : sC ≤ j
  · rw [if_pos h]
    cases hf : f i j with
    | none => exact ⟨rfl, fun _ => rfl⟩
    | some v => exact ⟨length_setCell .., fun t => rowLen_setCell res i j v t⟩
  · rw [if_neg h]; exact ⟨rfl, fun _ => rfl⟩

theorem cellWrite_shape (g : Grid) (sR sC : Nat) (f : Nat → Nat → Option String) :
    (cellWrite g sR sC f).length = g.length ∧
      ∀ t, rowLen (cellWrite g sR sC f) t = rowLen g t := by
  unfold cellWrite
  apply shape_foldl
  intro r i
  by_cases h : sR ≤ i
  · rw [if_pos h]
    unfold writeRow
    exact shape_foldl _ (fun r' j => writeStep_shape f sC i r' j) _ r
  · rw [if_neg h]; exact ⟨rfl, fun _ => rfl⟩

theorem cellAt_writeStep (f : Nat → Nat → Option String) (sC i : Nat)
    (res : Grid) (j0 : Nat) (hj0 : j0 < rowLen res i) (i' j' : Nat) :
    cellAt (writeStep f sC i res j0) i' j' =
      if i' = i ∧ j' = j0 ∧ sC ≤ j0 ∧ (f i j0).isSome then f i j0
      else cellAt res i' j' := by
  have hi : i < res.length := by
    unfold rowLen at hj0
    by_contra h
    rw [List.getElem?_eq_none (Nat.le_of_not_lt h)] at hj0
    simp at hj0
  unfold writeStep
  by_cases hsc : sC ≤ j0
  · rw [if_pos hsc]
    cases hf : f i j0 with
    | none => rw [if_neg (fun hc => by simp [hf] at hc)]
    | some v =>
      rw [cellAt_setCell]
      by_cases hc : i' = i ∧ j' = j0
      · rw [if_pos ⟨hc.1, hc.2, hi, hj0⟩, if_pos ⟨hc.1, hc.2, hsc, by simp [hf]⟩]
      · rw [if_neg (fun h => hc ⟨h.1, h.2.1⟩), if_neg (fun h => hc ⟨h.1, h.2.1⟩)]
  · rw [if_neg hsc, if_neg (fun hc => hsc hc.2.2.1)]

theorem cellAt_writeRow_aux (g : Grid) (sC : Nat) (f : Nat → Nat → Option String)
    (i : Nat) :
    ∀ (l : List Nat) (res : Grid), res.length = g.length →
      (∀ t, rowLen res t = rowLen g t) → (∀ j ∈ l, j < rowLen g i) →
      ∀ i' j', cellAt (l.foldl (writeStep f sC i) res) i' j' =
        if i' = i ∧ sC ≤ j' ∧ j' ∈ l ∧ (f i j').isSome then f i j'
        else cellAt res i' j' := by
  intro l
  induction l with
  | nil =>
    intro res _ _ _ i' j'
    rw [List.foldl_nil, if_neg (fun hc => by simp at hc)]
  | cons j0 rest ih =>
    intro res hlen hrows hdom i' j'
    rw [List.foldl_cons]
    obtain ⟨hs1, hs2⟩ := writeStep_shape f sC i res j0
    rw [ih (writeStep f sC i res j0) (by omega) (fun t => by rw [hs2 t]; exact hrows t)
      (fun j hj => hdom j (List.mem_cons_of_mem _ hj))]
    have hj0 : j0 < rowLen res i := by
      rw [hrows i]; exact hdom j0 (List.mem_cons_self ..)
    by_cases hc : i' = i ∧ sC ≤ j' ∧ j' ∈ j0 :: rest ∧ (f i j').isSome
    · obtain ⟨h1, h2, h3, h4⟩ := hc
      by_cases hr : j' ∈ rest
      · rw [if_pos ⟨h1, h2, hr, h4⟩, if_pos ⟨h1, h2, h3, h4⟩]
      · have hj' : j' = j0 := by
          rcases List.mem_cons.mp h3 with h | h
          · exact h
          · exact absurd h hr
        rw [if_neg (fun hcc => hr hcc.2.2.1), cellAt_writeStep f sC i res j0 hj0,
          if_pos ⟨h1, hj', hj' ▸ h2, hj' ▸ h4⟩, if_pos ⟨h1, h2, h3, h4⟩, hj']
    · rw [if_neg hc]
      rw [if_neg (by
        rintro ⟨hh1, hh2, hh3, hh4⟩
        exact hc ⟨hh1, hh2, List.mem_cons_of_mem _ hh3, hh4⟩)]
      rw [cellAt_writeStep f sC i res j0 hj0]
      rw [if_neg (by
        rintro ⟨hh1, hh2, hh3, hh4⟩
        subst hh2
        exact hc ⟨hh1, hh3, List.mem_cons_self .., hh4⟩)]

theorem cellAt_cellWrite_aux (g : Grid) (sR sC : Nat) (f : Nat → Nat → Option String) :
    ∀ (l : List Nat) (res : Grid), res.length = g.length →
      (∀ t, rowLen res t = rowLen g t) →
      ∀ i' j', cellAt (l.foldl
          (fun r i => if sR ≤ i then writeRow g sC f r i else r) res) i' j' =
        if i' ∈ l ∧ sR ≤ i' ∧ sC ≤ j' ∧ j' < rowLen g i' ∧ (f i' j').isSome then f i' j'
        else cellAt res i' j' := by
  intro l
  induction l with
  | nil =>
    intro res _ _ i' j'
    rw [List.foldl_nil, if_neg (fun hc => by simp at hc)]
  | cons i0 rest ih =>
    intro res hlen hrows i' j'
    rw [List.foldl_cons]
    have hstep : ∀ r : Grid, r.length = g.length → (∀ t, rowLen r t = rowLen g t) →
        ((if sR ≤ i0 then writeRow g sC f r i0 else r).length = g.length ∧
          ∀ t, rowLen (if sR ≤ i0 then writeRow g sC f r i0 else r) t = rowLen g t) := by
      intro r h1 h2
      by_cases h : sR ≤ i0
      · rw [if_pos h]
        unfold writeRow
        obtain ⟨hh1, hh2⟩ := shape_foldl _ (fun r' j => writeStep_shape f sC i0 r' j)
          (List.range (rowLen g i0)) r
        exact ⟨by omega, fun t => by rw [hh2 t]; exact h2 t⟩
      · rw [if_neg h]; exact ⟨h1, h2⟩
    obtain ⟨hn1, hn2⟩ := hstep res hlen hrows
    rw [ih _ hn1 hn2]
    have hinner : cellAt (if sR ≤ i0 then writeRow g sC f res i0 else res) i' j' =
        if i' = i0 ∧ sR ≤ i0 ∧ sC ≤ j' ∧ j' < rowLen g i0 ∧ (f i0 j').isSome then f i0 j'
        else cellAt res i' j' := by
      by_cases h : sR ≤ i0
      · rw [if_pos h]
        unfold writeRow
        rw [cellAt_writeRow_aux g sC f i0 (List.range (rowLen g i0)) res hlen hrows
          (fun j hj => List.mem_range.mp hj)]
        by_cases hc : i' = i0 ∧ sC ≤ j' ∧ j' ∈ List.range (rowLen g i0) ∧ (f i0 j').isSome
        · rw [if_pos hc,
            if_pos ⟨hc.1, h, hc.2.1, List.mem_range.mp hc.2.2.1, hc.2.2.2⟩]
        · rw [if_neg hc, if_neg (fun hcc => hc ⟨hcc.1, hcc.2.2.1,
            List.mem_range.mpr hcc.2.2.2.1, hcc.2.2.2.2⟩)]
      · rw [if_neg h, if_neg (fun hc => h hc.2.1)]
    rw [hinner]
    by_cases hc : i' ∈ i0 :: rest ∧ sR ≤ i' ∧ sC ≤ j' ∧ j' < rowLen g i' ∧ (f i' j').isSome
    · obtain ⟨h1, h2, h3, h4, h5⟩ := hc
      by_cases hr : i' ∈ rest
      · rw [if_pos ⟨hr, h2, h3, h4, h5⟩, if_pos ⟨h1, h2, h3, h4, h5⟩]
      · have hi' : i' = i0 := by
          rcases List.mem_cons.mp h1 with h | h
          · exact h
          · exact absurd h hr
        rw [if_neg (fun hcc => hr hcc.1), if_pos ⟨hi', hi' ▸ h2, h3, hi' ▸ h4, hi' ▸ h5⟩,
          if_pos ⟨h1, h2, h3, h4, h5⟩, hi']
    · rw [if_neg hc]
      rw [if_neg (by
        rintro ⟨hh1, hh2, hh3, hh4, hh5⟩
        exact hc ⟨List.mem_cons_of_mem _ hh1, hh2, hh3, hh4, hh5⟩)]
      rw [if_neg (by
        rintro ⟨hh1, hh2, hh3, hh4, hh5⟩
        subst hh1
        exact hc ⟨List.mem_cons_self .., hh2, hh3, hh4, hh5⟩)]

/-- The single write of each in-mask cell happens with a value computed
from the pristine input grid: the result of the looped writes, cell by
cell. -/
theorem cellAt_cellWrite (g : Grid) (sR sC : Nat) (f : Nat → Nat → Option String)
    (i j : Nat) :
    cellAt (cellWrite g sR sC f) i j =
      if sR ≤ i ∧ sC ≤ j ∧ j < rowLen g i ∧ (f i j).isSome then f i j
      else cellAt g i j := by
  unfold cellWrite
  rw [cellAt_cellWrite_aux g sR sC f (List.range g.length) g rfl (fun _ => rfl)]
  have hlen : ∀ {jj ii : Nat}, jj < rowLen g ii → ii < g.length := by
    intro jj ii h
    unfold rowLen at h
    by_contra hcon
    rw [List.getElem?_eq_none (Nat.le_of_not_lt hcon)] at h
    simp at h
  by_cases hc : sR ≤ i ∧ sC ≤ j ∧ j < rowLen g i ∧ (f i j).isSome
  · rw [if_pos hc, if_pos ⟨List.mem_range.mpr (hlen hc.2.2.1), hc⟩]
  · rw [if_neg hc, if_neg (fun hcc => hc hcc.2)]

/-- When the per-cell computation never produces a value, the looped
writes leave the copied grid exactly equal to the input. -/
theorem cellWrite_eq_self (g : Grid) (sR sC : Nat) (f : Nat → Nat → Option String)
    (h : ∀ i j, sR ≤ i → sC ≤ j → j < rowLen g i → f i j = none) :
    cellWrite g sR sC f = g := by
  obtain ⟨h1, _h2⟩ := cellWrite_shape g sR sC f
  refine grid_ext h1 (fun i j => ?_)
  rw [cellAt_cellWrite]
  by_cases hc : sR ≤ i ∧ sC ≤ j ∧ j < rowLen g i ∧ (f i j).isSome
  · rw [h i j hc.1 hc.2.1 hc.2.2.1] at hc
    simp at hc
  · rw [if_neg hc]

/-! ## Gradient color mapping (plugin.js:697-867)

Stop positions and channel values are JS number literals, embedded as `ℚ`;
channel triples of the stop tables are integer literals, embedded as `ℤ`.
`getColorForValue` in the source returns the string
`rgb(r, g, b)` built from the rounded integer channels, and `getCellColors`
re-extracts exactly those three integers with `match(/\d+/g)`; the
round trip is the identity on the non-negative integer channel triple, so
the triple itself is used as the interface here (`getColorForValueRGB`). -/

structure ColorStop where
  value : ℚ
  color : ℤ × ℤ × ℤ
deriving DecidableEq

structure ColorScheme where
  name : String
  colors : List ColorStop
deriving DecidableEq

def THERMAL : ColorScheme :=
  ⟨"Thermal",
    [⟨0, (0, 0, 255)⟩, ⟨1/4, (0, 255, 255)⟩, ⟨1/2, (0, 255, 0)⟩,
      ⟨3/4, (255, 255, 0)⟩, ⟨1, (255, 0, 0)⟩]⟩

def GRAYSCALE : ColorScheme :=
  ⟨"Grayscale", [⟨0, (255, 255, 255)⟩, ⟨1, (0, 0, 0)⟩]⟩

def VIRIDIS : ColorScheme :=
  ⟨"Viridis",
    [⟨0, (68, 1, 84)⟩, ⟨1/4, (59, 82, 139)⟩, ⟨1/2, (33, 145, 140)⟩,
      ⟨3/4, (94, 201, 98)⟩, ⟨1, (253, 231, 37)⟩]⟩

def AUTOMOTIVE : ColorScheme :=
  ⟨"Automotive",
    [⟨0, (30, 30, 180)⟩, ⟨1/5, (60, 120, 220)⟩, ⟨2/5, (100, 200, 100)⟩,
      ⟨3/5, (255, 200, 60)⟩, ⟨4/5, (255, 120, 30)⟩, ⟨1, (220, 20, 20)⟩]⟩

/-- `interpolateColor` (plugin.js:800): per-channel linear interpolation,
rounded with `Math.round`. -/
def interpolateColor (c1 c2 : ℤ × ℤ × ℤ) (factor : ℚ) : ℤ × ℤ × ℤ :=
  (jsRound ((c1.1 : ℚ) + ((c2.1 : ℚ) - (c1.1 : ℚ)) * factor),
    jsRound ((c1.2.1 : ℚ) + ((c2.2.1 : ℚ) - (c1.2.1 : ℚ)) * factor),
    jsRound ((c1.2.2 : ℚ) + ((c2.2.2 : ℚ) - (c1.2.2 : ℚ)) * factor))

/-- The stop-bracketing loop of `getColorForValue` (plugin.js:825): the
first adjacent pair `(colors[i], colors[i+1])` whose positions enclose the
clamped value; `none` when the loop never breaks. -/
def findStops (v : ℚ) : List ColorStop → Option (ColorStop × ColorStop)
  | a :: b :: rest =>
    if a.value ≤ v ∧ v ≤ b.value then some (a, b) else findStops v (b :: rest)
  | _ => none

def defaultStop : ColorStop := ⟨0, (0, 0, 0)⟩

/-- `getColorForValue` (plugin.js:815), up to the final `rgb(...)` string
formatting: clamp, bracket, interpolate. -/
def getColorForValueRGB (normalizedValue : ℚ) (scheme : ColorScheme) : ℤ × ℤ × ℤ :=
  let v := max 0 (min 1 normalizedValue)
  let pair := (findStops v scheme.colors).getD
    (scheme.colors[0]?.getD defaultStop,
      scheme.colors[scheme.colors.length - 1]?.getD defaultStop)
  let lowerStop := pair.1
  let upperStop := pair.2
  let range := upperStop.value - lowerStop.value
  let factor := if range = 0 then 0 else (v - lowerStop.value) / range
  interpolateColor lowerStop.color upperStop.color factor

/-- `getCellColors` (plugin.js:855): normalize against the dataset range,
pick the background from the scheme, pick black or white text from the
integer brightness formula `(r*299 + g*587 + b*114) / 1000 > 128`. -/
def getCellColors (value mn mx : ℚ) (scheme : ColorScheme) :
    (ℤ × ℤ × ℤ) × String :=
  let range := mx - mn
  let normalizedValue := if range = 0 then 1/2 else (value - mn) / range
  let bg := getColorForValueRGB normalizedValue scheme
  let brightness : ℚ :=
    ((bg.1 : ℚ) * 299 + (bg.2.1 : ℚ) * 587 + (bg.2.2 : ℚ) * 114) / 1000
  (bg, if brightness > 128 then "#000000" else "#ffffff")

/-- `cellColors` as the specification words it: `normalized = 0.5` when
`max == min`, else `(value - min)/(max - min)`; perceptual brightness
`0.299*R + 0.587*G + 0.114*B`; black text above 128, white otherwise.
Modelled from the spec for comparison with `getCellColors`. -/
def specCellColors (value mn mx : ℚ) (scheme : ColorScheme) :
    (ℤ × ℤ × ℤ) × String :=
  let normalized := if mx = mn then (0.5 : ℚ) else (value - mn) / (mx - mn)
  let bg := getColorForValueRGB normalized scheme
  let r := (bg.1 : ℚ)
  let g := (bg.2.1 : ℚ)
  let b := (bg.2.2 : ℚ)
  let brightness := (0.299 : ℚ) * r + (0.587 : ℚ) * g + (0.114 : ℚ) * b
  (bg, if brightness > 128 then "#000000" else "#ffffff")

/-! ## Smoothing operations (plugin.js:882-1084) -/

/-- `skipFirstRow/skipFirstColumn` to loop start index. -/
def maskStart (b : Bool) : Nat := if b then 1 else 0

/-- `windowSize % 2 === 0` normalization at the top of `applyMovingAverage`
(plugin.js:888). -/
def normWindow (w : Nat) : Nat := if w % 2 = 0 then w + 1 else w

/-- The neighbor bounds check shared by the window loops (plugin.js:912):
`ni >= startRow && ni < content.length && nj >= startCol &&
nj < content[i].length` — note the column bound comes from the length of
the CENTER row `i`. -/
def inWindowBounds (g : Grid) (sR sC i : Nat) (ni nj : ℤ) : Bool :=
  decide ((sR : ℤ) ≤ ni) && decide (ni < (g.length : ℤ)) &&
    decide ((sC : ℤ) ≤ nj) && decide (nj < (rowLen g i : ℤ))

/-- `content[ni][nj]` for integer indices (callers guard non-negativity). -/
def cellAtZ (g : Grid) (ni nj : ℤ) : Option String := cellAt g ni.toNat nj.toNat

/-- The guarded neighbor read of the moving-average window body
(plugin.js:909-922) at offsets `(a - h, b - h)`: the parsed neighbor value
when the bounds check passes and the neighbor parses, `none` otherwise. -/
def mwVal (g : Grid) (sR sC h i j a b : Nat) : Option ℚ :=
  let ni : ℤ := (i : ℤ) + (a : ℤ) - (h : ℤ)
  let nj : ℤ := (j : ℤ) + (b : ℤ) - (h : ℤ)
  if inWindowBounds g sR sC i ni nj then parseNumericValue (cellAtZ g ni nj)
  else none

/-- The window accumulation of `applyMovingAverage` (plugin.js:907-925):
`sum` and `count` over the square window of offsets
`-halfWindow..halfWindow`. -/
def maWindow (g : Grid) (sR sC h i j : Nat) : ℚ × Nat :=
  (List.range (2 * h + 1)).foldl (fun acc a =>
    (List.range (2 * h + 1)).foldl (fun acc2 b =>
      match mwVal g sR sC h i j a b with
      | some nv => (acc2.1 + nv, acc2.2 + 1)
      | none => acc2) acc) (0, 0)

/-- The flattened list of the numeric values the moving-average window
collects, in loop order. -/
def maWindowVals (g : Grid) (sR sC h i j : Nat) : List ℚ :=
  (List.range (2 * h + 1)).flatMap (fun a =>
    (List.range (2 * h + 1)).filterMap (fun b => mwVal g sR sC h i j a b))

/-- The per-cell body of `applyMovingAverage` (plugin.js:900-935): `none`
when the source leaves `result[i][j]` untouched. -/
def maCellF (g : Grid) (sR sC h : Nat) (i j : Nat) : Option String :=
  match parseNumericValue (cellAt g i j) with
  | none => none
  | some _ =>
    let sc := maWindow g sR sC h i j
    if 0 < sc.2 then
      some (jsToFixed (sc.1 / (sc.2 : ℚ)) (max (smootherDecimals (rawCell g i j)) 2))
    else none

/-- `applyMovingAverage` (plugin.js:882). -/
def applyMovingAverage (content : Grid) (windowSize : Nat)
    (skipFirstRow skipFirstColumn : Bool) : Grid :=
  let halfWindow := normWindow windowSize / 2
  let sR := maskStart skipFirstRow
  let sC := maskStart skipFirstColumn
  cellWrite content sR sC (maCellF content sR sC halfWindow)

/-- `Math.floor(kernelSize / 2)` for
`kernelSize = Math.ceil(sigma * 3) * 2 + 1` (plugin.js:957-958). -/
def gaussHalfSize (sigma : ℚ) : ℤ := Int.fdiv (2 * ⌈sigma * 3⌉ + 1) 2

/-- Number of iterations of the kernel loops
`for (let i = -halfSize; i <= halfSize; i++)`: empty when `halfSize` is
negative (non-positive sigma can make `kernelSize` negative). -/
def gaussKernelLen (sigma : ℚ) : Nat :=
  let hs := gaussHalfSize sigma
  if 0 ≤ hs then 2 * hs.toNat + 1 else 0

/-- Un-normalized kernel entry `Math.exp(-(i*i + j*j) / (2*sigma*sigma))`
(plugin.js:967); `Math.exp` is the abstract `kexp`. -/
def gaussRawWeight (kexp : ℚ → ℚ) (sigma : ℚ) (di dj : ℤ) : ℚ :=
  kexp (-((di : ℚ) * (di : ℚ) + (dj : ℚ) * (dj : ℚ)) / (2 * sigma * sigma))

/-- `kernelSum` (plugin.js:962-972). -/
def gaussKernelSum (kexp : ℚ → ℚ) (sigma : ℚ) : ℚ :=
  let len := gaussKernelLen sigma
  let hs := gaussHalfSize sigma
  (List.range len).foldl (fun s ki =>
    (List.range len).foldl (fun s2 kj =>
      s2 + gaussRawWeight kexp sigma ((ki : ℤ) - hs) ((kj : ℤ) - hs)) s) 0

/-- The `sum`/`weightSum` accumulation of `applyGaussianSmoothing`
(plugin.js:990-1012); the in-place kernel normalization
`kernel[i][j] /= kernelSum` is applied at the point of use. -/
def gaussAcc (kexp : ℚ → ℚ) (g : Grid) (sR sC : Nat) (sigma : ℚ)
    (i j : Nat) : ℚ × ℚ :=
  let hs := gaussHalfSize sigma
  let len := gaussKernelLen sigma
  let ksum := gaussKernelSum kexp sigma
  (List.range len).foldl (fun acc ki =>
    (List.range len).foldl (fun acc2 kj =>
      let ni : ℤ := (i : ℤ) + (ki : ℤ) - hs
      let nj : ℤ := (j : ℤ) + (kj : ℤ) - hs
      if inWindowBounds g sR sC i ni nj then
        match parseNumericValue (cellAtZ g ni nj) with
        | some nv =>
          let w := gaussRawWeight kexp sigma ((ki : ℤ) - hs) ((kj : ℤ) - hs) / ksum
          (acc2.1 + nv * w, acc2.2 + w)
        | none => acc2
      else acc2) acc) ((0 : ℚ), (0 : ℚ))

/-- The per-cell body of `applyGaussianSmoothing` (plugin.js:987-1021). -/
def gaussCellF (kexp : ℚ → ℚ) (g : Grid) (sR sC : Nat) (sigma : ℚ)
    (i j : Nat) : Option String :=
  match parseNumericValue (cellAt g i j) with
  | none => none
  | some _ =>
    let acc := gaussAcc kexp g sR sC sigma i j
    if 0 < acc.2 then
      some (jsToFixed (acc.1 / acc.2) (max (smootherDecimals (rawCell g i j)) 2))
    else none

/-- `applyGaussianSmoothing` (plugin.js:951), parameterized by the model
`kexp` of `Math.exp`. -/
def applyGaussianSmoothing (kexp : ℚ → ℚ) (content : Grid) (sigma : ℚ)
    (skipFirstRow skipFirstColumn : Bool) : Grid :=
  let sR := maskStart skipFirstRow
  let sC := maskStart skipFirstColumn
  cellWrite content sR sC (gaussCellF kexp content sR sC sigma)

/-- The 4-connected numeric neighbors of `applyBilinearInterpolation`
(plugin.js:1050-1068), collected in source order (up, down, left, right). -/
def biNeighbors (g : Grid) (sR sC : Nat) (i j : Nat) : List ℚ :=
  (if sR < i then (parseNumericValue (cellAt g (i - 1) j)).toList else []) ++
  (if i + 1 < g.length then (parseNumericValue (cellAt g (i + 1) j)).toList else []) ++
  (if sC < j then (parseNumericValue (cellAt g i (j - 1))).toList else []) ++
  (if j + 1 < rowLen g i then (parseNumericValue (cellAt g i (j + 1))).toList else [])

/-- The per-cell body of `applyBilinearInterpolation` (plugin.js:1047-1079). -/
def biCellF (g : Grid) (sR sC : Nat) (i j : Nat) : Option String :=
  match parseNumericValue (cellAt g i j) with
  | none => none
  | some v =>
    let neighbors := biNeighbors g sR sC i j
    if 0 < neighbors.length then
      some (jsToFixed ((v + neighbors.sum) / ((neighbors.length : ℚ) + 1))
        (max (smootherDecimals (rawCell g i j)) 2))
    else none

/-- `applyBilinearInterpolation` (plugin.js:1036). -/
def applyBilinearInterpolation (content : Grid)
    (skipFirstRow skipFirstColumn : Bool) : Grid :=
  let sR := maskStart skipFirstRow
  let sC := maskStart skipFirstColumn
  cellWrite content sR sC (biCellF content sR sC)

/-! ## Blank filling (plugin.js:1095-1195) -/

/-- The record returned by `findNearest`: parsed value, Manhattan distance
walked, and `getDecimalPlaces` of the found cell. -/
structure NearInfo where
  value : ℚ
  distance : Nat
  decimals : Nat
deriving DecidableEq

/-- The loop condition of `findNearest` (plugin.js:1123-1128): note the
column bound is `content[0].length` — the length of row 0. -/
def inRayBounds (g : Grid) (sR sC : Nat) (r c : ℤ) : Bool :=
  decide ((sR : ℤ) ≤ r) && decide (r < (g.length : ℤ)) &&
    decide ((sC : ℤ) ≤ c) && decide (c < (rowLen g 0 : ℤ))

/-- The while loop of `findNearest`, with explicit fuel.  Every iteration
moves `(r, c)` one step along one of the four unit axis directions the
caller uses, so within the box `[sR, g.length) × [sC, rowLen g 0)` the walk
leaves the box after fewer than `g.length + rowLen g 0 + 1` steps and the
fuel never expires for those calls. -/
def findNearestAux (g : Grid) (sR sC : Nat) (row col : Nat) (dR dC : ℤ) :
    Nat → ℤ → ℤ → Option NearInfo
  | 0, _, _ => none
  | fuel + 1, r, c =>
    if inRayBounds g sR sC r c then
      let cell := cellAtZ g r c
      if ¬ isEmptyCell cell then
        match parseNumericValue cell with
        | some val =>
          some ⟨val, (r - (row : ℤ)).natAbs + (c - (col : ℤ)).natAbs,
            fillDecimalPlaces (cell.getD "")⟩
        | none => findNearestAux g sR sC row col dR dC fuel (r + dR) (c + dC)
      else findNearestAux g sR sC row col dR dC fuel (r + dR) (c + dC)
    else none

def rayFuel (g : Grid) : Nat := g.length + rowLen g 0 + 1

/-- `findNearest` (plugin.js:1120): walk from the neighbor of `(row, col)`
in direction `(dR, dC)`. -/
def findNearest (g : Grid) (sR sC row col : Nat) (dR dC : ℤ) : Option NearInfo :=
  findNearestAux g sR sC row col dR dC (rayFuel g) ((row : ℤ) + dR) ((col : ℤ) + dC)

/-- The per-cell body of `autoFillBlanks` (plugin.js:1146-1192): only
blank cells are considered; contributions of the four directions are
pushed in source order (top, bottom, left, right). -/
def fillCellF (g : Grid) (sR sC : Nat) (i j : Nat) : Option String :=
  if isEmptyCell (cellAt g i j) then
    let top := findNearest g sR sC i j (-1) 0
    let bottom := findNearest g sR sC i j 1 0
    let left := findNearest g sR sC i j 0 (-1)
    let right := findNearest g sR sC i j 0 1
    let infos := [top, bottom, left, right].filterMap id
    if 0 < infos.length then
      let totalWeight := (infos.map (fun n => (1 : ℚ) / (n.distance : ℚ))).sum
      let interpolated :=
        (infos.map (fun n => n.value * ((1 : ℚ) / (n.distance : ℚ)))).sum / totalWeight
      let decimals := max ((infos.map (fun n => n.decimals)).foldl max 0) 1
      some (jsToFixed interpolated decimals)
    else none
  else none

/-- `autoFillBlanks` (plugin.js:1095). -/
def autoFillBlanks (content : Grid) (skipFirstRow skipFirstColumn : Bool) : Grid :=
  let sR := maskStart skipFirstRow
  let sC := maskStart skipFirstColumn
  cellWrite content sR sC (fillCellF content sR sC)

/-! ## Color mapping lemmas -/

/-- All three channels within the byte range. -/
def channelsIn255 (c : ℤ × ℤ × ℤ) : Prop :=
  0 ≤ c.1 ∧ c.1 ≤ 255 ∧ 0 ≤ c.2.1 ∧ c.2.1 ≤ 255 ∧ 0 ≤ c.2.2 ∧ c.2.2 ≤ 255

instance (c : ℤ × ℤ × ℤ) : Decidable (channelsIn255 c) := by
  unfold channelsIn255; infer_instance

/-- A scheme with stops anchored at 0 and 1 and byte-range channels. -/
def validScheme (S : ColorScheme) : Prop :=
  S.colors ≠ [] ∧ (S.colors[0]?.getD defaultStop).value = 0 ∧
    (S.colors[S.colors.length - 1]?.getD defaultStop).value = 1 ∧
    ∀ st ∈ S.colors, channelsIn255 st.color

instance (S : ColorScheme) : Decidable (validScheme S) := by
  unfold validScheme; infer_instance

theorem findStops_bracket (v : ℚ) :
    ∀ cs : List ColorStop, ∀ a b, findStops v cs = some (a, b) →
      a.value ≤ v ∧ v ≤ b.value := by
  intro cs
  induction cs with
  | nil => intro a b h; simp [findStops] at h
  | cons x rest ih =>
    intro a b h
    cases rest with
    | nil => simp [findStops] at h
    | cons y rest2 =>
      rw [findStops] at h
      by_cases hc : x.value ≤ v ∧ v ≤ y.value
      · rw [if_pos hc] at h
        obtain ⟨rfl, rfl⟩ : x = a ∧ y = b := by
          have := Option.some.inj h
          exact ⟨congrArg Prod.fst this, congrArg Prod.snd this⟩
        exact hc
      · rw [if_neg hc] at h
        exact ih a b h

theorem findStops_mem (v : ℚ) :
    ∀ cs : List ColorStop, ∀ a b, findStops v cs = some (a, b) →
      a ∈ cs ∧ b ∈ cs := by
  intro cs
  induction cs with
  | nil => intro a b h; simp [findStops] at h
  | cons x rest ih =>
    intro a b h
    cases rest with
    | nil => simp [findStops] at h
    | cons y rest2 =>
      rw [findStops] at h
      by_cases hc : x.value ≤ v ∧ v ≤ y.value
      · rw [if_pos hc] at h
        obtain ⟨rfl, rfl⟩ : x = a ∧ y = b := by
          have := Option.some.inj h
          exact ⟨congrArg Prod.fst this, congrArg Prod.snd this⟩
        exact ⟨List.mem_cons_self .., List.mem_cons_of_mem _ (List.mem_cons_self ..)⟩
      · rw [if_neg hc] at h
        obtain ⟨ha, hb⟩ := ih a b h
        exact ⟨List.mem_cons_of_mem _ ha, List.mem_cons_of_mem _ hb⟩

theorem firstD_mem {α : Type} (l : List α) (d : α) (h : l ≠ []) :
    l[0]?.getD d ∈ l := by
  have hlen : 0 < l.length := List.length_pos.mpr h
  rw [List.getElem?_eq_getElem hlen]
  exact List.getElem_mem ..

theorem lastD_mem {α : Type} (l : List α) (d : α) (h : l ≠ []) :
    l[l.length - 1]?.getD d ∈ l := by
  have hlen : 0 < l.length := List.length_pos.mpr h
  rw [List.getElem?_eq_getElem (by omega)]
  exact List.getElem_mem ..

theorem jsRound_byte (x : ℚ) (h0 : 0 ≤ x) (h1 : x ≤ 255) :
    0 ≤ jsRound x ∧ jsRound x ≤ 255 := by
  unfold jsRound
  constructor
  · rw [Int.le_floor]
    push_cast
    linarith
  · have : ⌊x + 1 / 2⌋ < 256 := by
      rw [Int.floor_lt]
      push_cast
      linarith
    omega

theorem channel_interp_byte (c1 c2 : ℤ) (f : ℚ) (hf0 : 0 ≤ f) (hf1 : f ≤ 1)
    (hc1 : 0 ≤ c1) (hc1' : c1 ≤ 255) (hc2 : 0 ≤ c2) (hc2' : c2 ≤ 255) :
    0 ≤ jsRound ((c1 : ℚ) + ((c2 : ℚ) - (c1 : ℚ)) * f) ∧
      jsRound ((c1 : ℚ) + ((c2 : ℚ) - (c1 : ℚ)) * f) ≤ 255 := by
  have q1 : (0 : ℚ) ≤ (c1 : ℚ) := by exact_mod_cast hc1
  have q1' : (c1 : ℚ) ≤ 255 := by exact_mod_cast hc1'
  have q2 : (0 : ℚ) ≤ (c2 : ℚ) := by exact_mod_cast hc2
  have q2' : (c2 : ℚ) ≤ 255 := by exact_mod_cast hc2'
  apply jsRound_byte
  · nlinarith
  · nlinarith

/-- For a valid scheme the interpolated color always stays in the byte
range (the input is clamped into `[0,1]` first, so this holds for every
input value). -/
theorem getColorForValueRGB_byte (S : ColorScheme) (hS : validScheme S) (nv : ℚ) :
    channelsIn255 (getColorForValueRGB nv S) := by
  obtain ⟨hne, hhead, hlast, hcolors⟩ := hS
  unfold getColorForValueRGB
  have hv0 : (0 : ℚ) ≤ max 0 (min 1 nv) := le_max_left _ _
  have hv1 : max 0 (min 1 nv) ≤ 1 := max_le (by norm_num) (min_le_left _ _)
  set v := max 0 (min 1 nv) with hvdef
  have key : ∀ a b : ColorStop, a ∈ S.colors → b ∈ S.colors →
      a.value ≤ v → v ≤ b.value →
      channelsIn255 (interpolateColor a.color b.color
        (if b.value - a.value = 0 then 0 else (v - a.value) / (b.value - a.value))) := by
    intro a b hma hmb hav hvb
    obtain ⟨a1, a2, a3, a4, a5, a6⟩ := hcolors a hma
    obtain ⟨b1, b2, b3, b4, b5, b6⟩ := hcolors b hmb
    have hfac : 0 ≤ (if b.value - a.value = 0 then (0 : ℚ)
        else (v - a.value) / (b.value - a.value)) ∧
        (if b.value - a.value = 0 then (0 : ℚ)
        else (v - a.value) / (b.value - a.value)) ≤ 1 := by
      by_cases hr : b.value - a.value = 0
      · rw [if_pos hr]; norm_num
      · rw [if_neg hr]
        have hpos : 0 < b.value - a.value := by
          rcases lt_or_eq_of_le (by linarith : (0 : ℚ) ≤ b.value - a.value) with h | h
          · exact h
          · exact absurd h.symm hr
        constructor
        · exact div_nonneg (by linarith) (le_of_lt hpos)
        · rw [div_le_one hpos]; linarith
    obtain ⟨hf0, hf1⟩ := hfac
    unfold interpolateColor channelsIn255
    refine ⟨?_, ?_, ?_, ?_, ?_, ?_⟩
    · exact (channel_interp_byte _ _ _ hf0 hf1 a1 a2 b1 b2).1
    · exact (channel_interp_byte _ _ _ hf0 hf1 a1 a2 b1 b2).2
    · exact (channel_interp_byte _ _ _ hf0 hf1 a3 a4 b3 b4).1
    · exact (channel_interp_byte _ _ _ hf0 hf1 a3 a4 b3 b4).2
    · exact (channel_interp_byte _ _ _ hf0 hf1 a5 a6 b5 b6).1
    · exact (channel_interp_byte _ _ _ hf0 hf1 a5 a6 b5 b6).2
  simp only []
  set p := (findStops v S.colors).getD
    (S.colors[0]?.getD defaultStop, S.colors[S.colors.length - 1]?.getD defaultStop) with hp
  have hprops : p.1 ∈ S.colors ∧ p.2 ∈ S.colors ∧ p.1.value ≤ v ∧ v ≤ p.2.value := by
    cases hfs : findStops v S.colors with
    | some pr =>
      have hpeq : p = pr := by rw [hp, hfs]; rfl
      obtain ⟨h1, h2⟩ := findStops_bracket v S.colors pr.1 pr.2 (by rw [hfs])
      obtain ⟨h3, h4⟩ := findStops_mem v S.colors pr.1 pr.2 (by rw [hfs])
      rw [hpeq]
      exact ⟨h3, h4, h1, h2⟩
    | none =>
      have hpeq : p = (S.colors[0]?.getD defaultStop,
          S.colors[S.colors.length - 1]?.getD defaultStop) := by rw [hp, hfs]; rfl
      refine ⟨?_, ?_, ?_, ?_⟩
      · rw [hpeq]
        exact firstD_mem _ _ hne
      · rw [hpeq]
        exact lastD_mem _ _ hne
      · rw [hpeq]
        show (S.colors[0]?.getD defaultStop).value ≤ v
        rw [hhead]
        exact hv0
      · rw [hpeq]
        show v ≤ (S.colors[S.colors.length - 1]?.getD defaultStop).value
        rw [hlast]
        exact hv1
  exact key p.1 p.2 hprops.1 hprops.2.1 hprops.2.2.1 hprops.2.2.2

/-- C6: for every value v in [0,1] and each of the four built-in color
schemes (THERMAL, AUTOMOTIVE, VIRIDIS, GRAYSCALE), getColorForValue
returns RGB channels each in [0,255]; getColorForValue(0, scheme) equals
the scheme's first stop's color exactly and getColorForValue(1, scheme)
equals the scheme's last stop's color exactly. -/
theorem c6_getColorForValue_bounds_and_endpoints (S : ColorScheme)
    (hS : S = THERMAL ∨ S = AUTOMOTIVE ∨ S = VIRIDIS ∨ S = GRAYSCALE)
    (v : ℚ) (h0 : 0 ≤ v) (h1 : v ≤ 1) :
    channelsIn255 (getColorForValueRGB v S) ∧
      getColorForValueRGB 0 S = (S.colors[0]?.getD defaultStop).color ∧
      getColorForValueRGB 1 S = (S.colors[S.colors.length - 1]?.getD defaultStop).color := by
  rcases hS with rfl | rfl | rfl | rfl <;>
    refine ⟨getColorForValueRGB_byte _ (by decide) v, ?_, ?_⟩ <;>
    norm_num [getColorForValueRGB, findStops, THERMAL, AUTOMOTIVE, VIRIDIS, GRAYSCALE,
      defaultStop, interpolateColor, jsRound]

/-- Witness for C6 at scheme THERMAL and v = 1/2. -/
theorem c6_getColorForValue_bounds_and_endpoints_witness :
    channelsIn255 (getColorForValueRGB (1/2) THERMAL) ∧
      getColorForValueRGB 0 THERMAL = (THERMAL.colors[0]?.getD defaultStop).color ∧
      getColorForValueRGB 1 THERMAL =
        (THERMAL.colors[THERMAL.colors.length - 1]?.getD defaultStop).color :=
  c6_getColorForValue_bounds_and_endpoints THERMAL (Or.inl rfl) (1/2)
    (by norm_num) (by norm_num)

/-- C7: for every value, min, max and built-in scheme, getCellColors
normalizes with 0.5 when max == min and (value-min)/(max-min) otherwise,
and chooses the text color by perceptual brightness
0.299R + 0.587G + 0.114B of the background: black if brightness > 128,
else white — stated as an equality between the source computation and the
computation worded exactly as the specification writes it. -/
theorem c7_getCellColors_matches_spec (value mn mx : ℚ) (S : ColorScheme)
    (hS : S = THERMAL ∨ S = AUTOMOTIVE ∨ S = VIRIDIS ∨ S = GRAYSCALE) :
    getCellColors value mn mx S = specCellColors value mn mx S := by
  unfold getCellColors specCellColors
  simp only []
  have hnorm : (if mx - mn = 0 then (1/2 : ℚ) else (value - mn) / (mx - mn)) =
      (if mx = mn then (0.5 : ℚ) else (value - mn) / (mx - mn)) := by
    by_cases h : mx = mn
    · rw [if_pos (by rw [h]; ring), if_pos h]
      norm_num
    · rw [if_neg (fun hc => h (by linarith)), if_neg h]
  rw [hnorm]
  congr 1
  set bg := getColorForValueRGB (if mx = mn then (0.5 : ℚ) else (value - mn) / (mx - mn)) S
    with hbg
  have hbr : ((bg.1 : ℚ) * 299 + (bg.2.1 : ℚ) * 587 + (bg.2.2 : ℚ) * 114) / 1000 =
      (0.299 : ℚ) * (bg.1 : ℚ) + (0.587 : ℚ) * (bg.2.1 : ℚ) + (0.114 : ℚ) * (bg.2.2 : ℚ) := by
    norm_num
    ring
  rw [hbr]

/-- Witness for C7 at value 5, range [0, 10], scheme THERMAL. -/
theorem c7_getCellColors_matches_spec_witness :
    getCellColors 5 0 10 THERMAL = specCellColors 5 0 10 THERMAL :=
  c7_getCellColors_matches_spec 5 0 10 THERMAL (Or.inl rfl)

/-! ## C3: invalid smoothing parameters -/

theorem gaussCellF_none_of_le (kexp : ℚ → ℚ) (g : Grid) (sR sC : Nat) (sigma : ℚ)
    (hs : sigma ≤ -1/3) (i j : Nat) : gaussCellF kexp g sR sC sigma i j = none := by
  have hceil : ⌈sigma * 3⌉ ≤ -1 := by
    rw [Int.ceil_le]
    push_cast
    linarith
  have hs_neg : gaussHalfSize sigma < 0 := by
    unfold gaussHalfSize
    exact Int.fdiv_neg' (by omega) (by omega)
  have hlen : gaussKernelLen sigma = 0 := by
    unfold gaussKernelLen
    rw [if_neg (by omega)]
  unfold gaussCellF gaussAcc
  cases hp : parseNumericValue (cellAt g i j) with
  | none => rfl
  | some v =>
    simp only [hlen, List.range_zero, List.foldl_nil]
    rw [if_neg (by norm_num)]

/-- C3 counterexample: calling applyMovingAverage with an invalid (even)
windowSize does not fail fast with an error; it silently substitutes the
normalized parameter, returning the same normally computed grid as the next
odd windowSize. -/
theorem c3_counterexample_silent_normalization :
    applyMovingAverage [["1", "3"]] 4 false false = [["2.00", "2.00"]] ∧
      applyMovingAverage [["1", "3"]] 4 false false =
        applyMovingAverage [["1", "3"]] 5 false false := by
  with_unfolding_all decide

/-- C3 amended: the core smoothing operations never signal an error for a
non-positive or invalid smoothing parameter: applyMovingAverage silently
increments an even windowSize by 1 and proceeds, and applyGaussianSmoothing
with sigma ≤ -1/3 (an empty kernel) returns the grid unchanged. -/
theorem c3_invalid_params_normalized_or_noop :
    (∀ (g : Grid) (w : Nat) (b1 b2 : Bool), w % 2 = 0 →
      applyMovingAverage g w b1 b2 = applyMovingAverage g (w + 1) b1 b2) ∧
    (∀ (kexp : ℚ → ℚ) (g : Grid) (sigma : ℚ) (b1 b2 : Bool), sigma ≤ -1/3 →
      applyGaussianSmoothing kexp g sigma b1 b2 = g) := by
  constructor
  · intro g w b1 b2 h
    have h1 : normWindow w = w + 1 := by unfold normWindow; rw [if_pos h]
    have h2 : normWindow (w + 1) = w + 1 := by
      unfold normWindow
      rw [if_neg (by omega)]
    unfold applyMovingAverage
    rw [h1, h2]
  · intro kexp g sigma b1 b2 h
    unfold applyGaussianSmoothing
    exact cellWrite_eq_self _ _ _ _
      (fun i j _ _ _ => gaussCellF_none_of_le kexp g _ _ sigma h i j)

/-- Witness for C3 amended at windowSize 2 and sigma -1. -/
theorem c3_invalid_params_normalized_or_noop_witness :
    applyMovingAverage [["2"]] 2 false false = applyMovingAverage [["2"]] 3 false false ∧
      applyGaussianSmoothing (fun _ => 1) [["2"]] (-1) false false = [["2"]] :=
  ⟨c3_invalid_params_normalized_or_noop.1 [["2"]] 2 false false rfl,
    c3_invalid_params_normalized_or_noop.2 (fun _ => 1) [["2"]] (-1) false false
      (by norm_num)⟩

/-! ## C2: BlankFiller idempotence -/

theorem lt_of_rowLen_pos {g : Grid} {i j : Nat} (h : j < rowLen g i) :
    i < g.length := by
  unfold rowLen at h
  by_contra hcon
  rw [List.getElem?_eq_none (Nat.le_of_not_lt hcon)] at h
  simp at h

/-- Is any in-mask cell of the grid blank (in the sense of the source's
`isEmpty` helper)? -/
def hasBlankInMask (g : Grid) (sR sC : Nat) : Bool :=
  (List.range g.length).any (fun i =>
    decide (sR ≤ i) && (List.range (rowLen g i)).any (fun j =>
      decide (sC ≤ j) && isEmptyCell (cellAt g i j)))

/-- C2 counterexample: on [["", ""], ["", "5"]] the first pass cannot fill
cell (0,0) (its rays see only blanks), but fills (0,1) and (1,0); the
second pass then fills (0,0) from those filled cells, so applying
autoFillBlanks twice differs from applying it once. -/
theorem c2_counterexample_not_idempotent :
    autoFillBlanks (autoFillBlanks [["", ""], ["", "5"]] false false) false false ≠
      autoFillBlanks [["", ""], ["", "5"]] false false := by
  with_unfolding_all decide

/-- C2 amended: applying autoFillBlanks twice yields the same grid as
applying it once whenever the first application leaves no blank in-mask
cell; in general a second pass may fill blanks the first pass could not
reach (through cells the first pass filled). -/
theorem c2_autofill_idempotent_when_no_blanks_remain (g : Grid) (b1 b2 : Bool)
    (h : hasBlankInMask (autoFillBlanks g b1 b2) (maskStart b1) (maskStart b2) = false) :
    autoFillBlanks (autoFillBlanks g b1 b2) b1 b2 = autoFillBlanks g b1 b2 := by
  set h2 := autoFillBlanks g b1 b2 with hh2
  have hnone : ∀ i j, maskStart b1 ≤ i → maskStart b2 ≤ j → j < rowLen h2 i →
      fillCellF h2 (maskStart b1) (maskStart b2) i j = none := by
    intro i j hi hj hjl
    have hne : isEmptyCell (cellAt h2 i j) = false := by
      cases hb : isEmptyCell (cellAt h2 i j)
      · rfl
      · exfalso
        have htrue : hasBlankInMask h2 (maskStart b1) (maskStart b2) = true := by
          unfold hasBlankInMask
          rw [List.any_eq_true]
          refine ⟨i, List.mem_range.mpr (lt_of_rowLen_pos hjl), ?_⟩
          rw [Bool.and_eq_true, List.any_eq_true]
          refine ⟨by simpa using hi, j, List.mem_range.mpr hjl, ?_⟩
          rw [Bool.and_eq_true]
          exact ⟨by simpa using hj, hb⟩
        rw [h] at htrue
        exact Bool.false_ne_true htrue
    unfold fillCellF
    rw [hne]
    simp
  unfold autoFillBlanks
  exact cellWrite_eq_self _ _ _ _ hnone

/-- Witness for C2 amended on a grid with no blanks at all. -/
theorem c2_autofill_idempotent_when_no_blanks_remain_witness :
    autoFillBlanks (autoFillBlanks [["1"]] false false) false false =
      autoFillBlanks [["1"]] false false :=
  c2_autofill_idempotent_when_no_blanks_remain [["1"]] false false
    (by with_unfolding_all decide)

/-! ## C8/C9: pointwise output, shape preservation -/
theorem cellAt_eq_some_raw {g : Grid} {i j : Nat} (h : j < rowLen g i) :
    cellAt g i j = some (rawCell g i j) := by
  have hi : i < g.length := lt_of_rowLen_pos h
  unfold rowLen at h
  rw [List.getElem?_eq_getElem hi] at h
  simp only [Option.getD_some] at h
  unfold rawCell cellAt
  rw [List.getElem?_eq_getElem hi]
  simp only [Option.some_bind]
  rw [List.getElem?_eq_getElem h]
  rfl

theorem cellAt_eq_none_of_le {g : Grid} {i j : Nat} (h : rowLen g i ≤ j) :
    cellAt g i j = none := by
  unfold cellAt
  by_cases hi : i < g.length
  · rw [List.getElem?_eq_getElem hi]
    simp only [Option.some_bind]
    unfold rowLen at h
    rw [List.getElem?_eq_getElem hi] at h
    simp only [Option.getD_some] at h
    exact List.getElem?_eq_none h
  · rw [List.getElem?_eq_none (Nat.le_of_not_lt hi)]
    rfl

def mapGridIdx (g : Grid) (F : Nat → Nat → String → String) : Grid :=
  (List.range g.length).map (fun i =>
    (List.range (rowLen g i)).map (fun j => F i j (rawCell g i j)))

theorem length_mapGridIdx (g : Grid) (F : Nat → Nat → String → String) :
    (mapGridIdx g F).length = g.length := by
  simp [mapGridIdx]


theorem rowLen_mapGridIdx (g : Grid) (F : Nat → Nat → String → String) (t : Nat) :
    rowLen (mapGridIdx g F) t = rowLen g t := by
  by_cases ht : t < g.length
  · show ((mapGridIdx g F)[t]?.getD []).length = rowLen g t
    unfold mapGridIdx
    rw [List.getElem?_map, List.getElem?_range ht]
    show ((some ((List.range (rowLen g t)).map
        (fun j => F t j (rawCell g t j)))).getD []).length = rowLen g t
    rw [Option.getD_some, List.length_map, List.length_range]
  · show ((mapGridIdx g F)[t]?.getD []).length = ((g[t]?).getD []).length
    rw [List.getElem?_eq_none (by rw [length_mapGridIdx]; exact Nat.le_of_not_lt ht),
      List.getElem?_eq_none (Nat.le_of_not_lt ht)]

theorem cellAt_mapGridIdx (g : Grid) (F : Nat → Nat → String → String) (i j : Nat) :
    cellAt (mapGridIdx g F) i j =
      if i < g.length ∧ j < rowLen g i then some (F i j (rawCell g i j)) else none := by
  by_cases hi : i < g.length
  · show ((mapGridIdx g F)[i]?.bind fun row => row[j]?) = _
    unfold mapGridIdx
    rw [List.getElem?_map, List.getElem?_range hi]
    show ((List.range (rowLen g i)).map (fun j => F i j (rawCell g i j)))[j]? = _
    rw [List.getElem?_map]
    by_cases hj : j < rowLen g i
    · rw [List.getElem?_range hj, if_pos ⟨hi, hj⟩]
      rfl
    · rw [List.getElem?_eq_none (by simpa using Nat.le_of_not_lt hj),
        if_neg (fun hc => hj hc.2)]
      rfl
  · show ((mapGridIdx g F)[i]?.bind fun row => row[j]?) = _
    rw [List.getElem?_eq_none (by rw [length_mapGridIdx]; exact Nat.le_of_not_lt hi),
      if_neg (fun hc => hi hc.1)]
    rfl

theorem cellWrite_eq_mapGridIdx (g : Grid) (sR sC : Nat) (f : Nat → Nat → Option String) :
    cellWrite g sR sC f =
      mapGridIdx g (fun i j c => if sR ≤ i ∧ sC ≤ j then (f i j).getD c else c) := by
  apply grid_ext
  · rw [(cellWrite_shape g sR sC f).1, length_mapGridIdx]
  · intro i j
    rw [cellAt_cellWrite, cellAt_mapGridIdx]
    by_cases hj : j < rowLen g i
    · have hi : i < g.length := lt_of_rowLen_pos hj
      have hrhs : i < g.length ∧ j < rowLen g i := ⟨hi, hj⟩
      rw [if_pos hrhs]
      by_cases hm : sR ≤ i ∧ sC ≤ j
      · cases hf : f i j with
        | none =>
          have hnd : ¬(sR ≤ i ∧ sC ≤ j ∧ j < rowLen g i ∧
              (none : Option String).isSome = true) := by
            rintro ⟨_, _, _, hs⟩
            simp at hs
          rw [if_neg hnd, if_pos hm, cellAt_eq_some_raw hj]
          rfl
        | some v =>
          have hd : sR ≤ i ∧ sC ≤ j ∧ j < rowLen g i ∧
              (some v : Option String).isSome = true := ⟨hm.1, hm.2, hj, rfl⟩
          rw [if_pos hd, if_pos hm]
          rfl
      · have hnd : ¬(sR ≤ i ∧ sC ≤ j ∧ j < rowLen g i ∧ (f i j).isSome = true) :=
          fun hc => hm ⟨hc.1, hc.2.1⟩
        rw [if_neg hnd, if_neg hm, cellAt_eq_some_raw hj]
    · have hn1 : ¬(i < g.length ∧ j < rowLen g i) := fun hc => hj hc.2
      have hn2 : ¬(sR ≤ i ∧ sC ≤ j ∧ j < rowLen g i ∧ (f i j).isSome = true) :=
        fun hc => hj hc.2.2.1
      rw [if_neg hn1, if_neg hn2, cellAt_eq_none_of_le (Nat.le_of_not_lt hj)]

/-- C9: for every grid — ragged rows included — all four operations are
total and return a grid with exactly the input's row count and per-row
lengths: an access to a missing column of a shorter row behaves as
out-of-bounds (`cellAt = none`, parsed as non-numeric) rather than as a
failure. -/
theorem c9_ragged_rows_tolerated (g : Grid) (w : Nat) (kexp : ℚ → ℚ)
    (sigma : ℚ) (b1 b2 : Bool) :
    ((applyMovingAverage g w b1 b2).length = g.length ∧
      ∀ t, rowLen (applyMovingAverage g w b1 b2) t = rowLen g t) ∧
    ((applyGaussianSmoothing kexp g sigma b1 b2).length = g.length ∧
      ∀ t, rowLen (applyGaussianSmoothing kexp g sigma b1 b2) t = rowLen g t) ∧
    ((applyBilinearInterpolation g b1 b2).length = g.length ∧
      ∀ t, rowLen (applyBilinearInterpolation g b1 b2) t = rowLen g t) ∧
    ((autoFillBlanks g b1 b2).length = g.length ∧
      ∀ t, rowLen (autoFillBlanks g b1 b2) t = rowLen g t) :=
  ⟨cellWrite_shape g (maskStart b1) (maskStart b2)
      (maCellF g (maskStart b1) (maskStart b2) (normWindow w / 2)),
    cellWrite_shape g (maskStart b1) (maskStart b2)
      (gaussCellF kexp g (maskStart b1) (maskStart b2) sigma),
    cellWrite_shape g (maskStart b1) (maskStart b2)
      (biCellF g (maskStart b1) (maskStart b2)),
    cellWrite_shape g (maskStart b1) (maskStart b2)
      (fillCellF g (maskStart b1) (maskStart b2))⟩

/-- C8: each of the four operations computes every output cell from the
original input grid only (the input itself, being a pure value here, is
left unchanged): the result equals the grid assembled pointwise, cell by
cell, from functions of the pristine input, so per-cell processing order
cannot influence the result. -/
theorem c8_output_pointwise_from_input (g : Grid) (w : Nat) (kexp : ℚ → ℚ)
    (sigma : ℚ) (b1 b2 : Bool) :
    applyMovingAverage g w b1 b2 = mapGridIdx g (fun i j c =>
      if maskStart b1 ≤ i ∧ maskStart b2 ≤ j then
        (maCellF g (maskStart b1) (maskStart b2) (normWindow w / 2) i j).getD c
      else c) ∧
    applyGaussianSmoothing kexp g sigma b1 b2 = mapGridIdx g (fun i j c =>
      if maskStart b1 ≤ i ∧ maskStart b2 ≤ j then
        (gaussCellF kexp g (maskStart b1) (maskStart b2) sigma i j).getD c
      else c) ∧
    applyBilinearInterpolation g b1 b2 = mapGridIdx g (fun i j c =>
      if maskStart b1 ≤ i ∧ maskStart b2 ≤ j then
        (biCellF g (maskStart b1) (maskStart b2) i j).getD c
      else c) ∧
    autoFillBlanks g b1 b2 = mapGridIdx g (fun i j c =>
      if maskStart b1 ≤ i ∧ maskStart b2 ≤ j then
        (fillCellF g (maskStart b1) (maskStart b2) i j).getD c
      else c) :=
  ⟨cellWrite_eq_mapGridIdx g (maskStart b1) (maskStart b2)
      (maCellF g (maskStart b1) (maskStart b2) (normWindow w / 2)),
    cellWrite_eq_mapGridIdx g (maskStart b1) (maskStart b2)
      (gaussCellF kexp g (maskStart b1) (maskStart b2) sigma),
    cellWrite_eq_mapGridIdx g (maskStart b1) (maskStart b2)
      (biCellF g (maskStart b1) (maskStart b2)),
    cellWrite_eq_mapGridIdx g (maskStart b1) (maskStart b2)
      (fillCellF g (maskStart b1) (maskStart b2))⟩

/-! ## C10: the moving-average window always contains its center -/

open AutoTable

theorem foldl_option_sum_count {β : Type} (f : β → Option ℚ) :
    ∀ (l : List β) (p : ℚ × Nat),
      l.foldl (fun acc x => match f x with
        | some v => (acc.1 + v, acc.2 + 1)
        | none => acc) p = (p.1 + (l.filterMap f).sum, p.2 + (l.filterMap f).length) := by
  intro l
  induction l with
  | nil => intro p; simp
  | cons x xs ih =>
    intro p
    rw [List.foldl_cons]
    cases hf : f x with
    | none =>
      rw [ih, List.filterMap_cons_none hf]
    | some v =>
      rw [ih, List.filterMap_cons_some hf]
      simp only [List.sum_cons, List.length_cons, Prod.mk.injEq]
      constructor
      · ring
      · omega

theorem maWindow_eq_vals (g : Grid) (sR sC h i j : Nat) :
    maWindow g sR sC h i j =
      ((maWindowVals g sR sC h i j).sum, (maWindowVals g sR sC h i j).length) := by
  unfold maWindow maWindowVals
  have main : ∀ (la : List Nat) (p : ℚ × Nat),
      la.foldl (fun acc a => (List.range (2 * h + 1)).foldl
        (fun acc2 b => match mwVal g sR sC h i j a b with
          | some nv => (acc2.1 + nv, acc2.2 + 1)
          | none => acc2) acc) p =
      (p.1 + (la.flatMap (fun a => (List.range (2 * h + 1)).filterMap
          (fun b => mwVal g sR sC h i j a b))).sum,
        p.2 + (la.flatMap (fun a => (List.range (2 * h + 1)).filterMap
          (fun b => mwVal g sR sC h i j a b))).length) := by
    intro la
    induction la with
    | nil => intro p; simp
    | cons a la ih =>
      intro p
      rw [List.foldl_cons, foldl_option_sum_count, ih, List.flatMap_cons,
        List.sum_append, List.length_append]
      have heta : (fun b => mwVal g sR sC h i j a b) = mwVal g sR sC h i j a := rfl
      rw [heta]
      simp only [Prod.mk.injEq]
      constructor
      · ring
      · omega
  rw [main]
  simp

theorem cellAt_some_bounds {g : Grid} {i j : Nat} {s : String}
    (h : cellAt g i j = some s) : i < g.length ∧ j < rowLen g i := by
  by_cases hj : j < rowLen g i
  · exact ⟨lt_of_rowLen_pos hj, hj⟩
  · rw [cellAt_eq_none_of_le (Nat.le_of_not_lt hj)] at h
    exact absurd h (by simp)

/-- C10: for every grid, mask, and windowSize >= 1, applyMovingAverage
rewrites every in-mask cell whose text parses numerically: the window
always contains the cell itself (offset (0,0) is in-mask and numeric), so
the collected count is at least 1 and the cell receives the rendered
window mean; the count-is-zero branch that would leave such a cell
untouched is unreachable. -/
theorem c10_ma_numeric_cells_always_rewritten (g : Grid) (w : Nat) (b1 b2 : Bool) (i j : Nat) (v : ℚ)
    (hw : 1 ≤ w) (hi : maskStart b1 ≤ i) (hj : maskStart b2 ≤ j)
    (hv : parseNumericValue (cellAt g i j) = some v) :
    0 < (maWindow g (maskStart b1) (maskStart b2) (normWindow w / 2) i j).2 ∧
      cellAt (applyMovingAverage g w b1 b2) i j =
        some (jsToFixed
          ((maWindow g (maskStart b1) (maskStart b2) (normWindow w / 2) i j).1 /
            ((maWindow g (maskStart b1) (maskStart b2) (normWindow w / 2) i j).2 : ℚ))
          (max (smootherDecimals (rawCell g i j)) 2)) := by
  set sR := maskStart b1
  set sC := maskStart b2
  set h := normWindow w / 2 with hdef
  have hcell : ∃ s, cellAt g i j = some s := by
    cases hc : cellAt g i j with
    | none => rw [hc] at hv; exact absurd hv (by simp [parseNumericValue])
    | some s => exact ⟨s, rfl⟩
  obtain ⟨s, hs⟩ := hcell
  obtain ⟨hilen, hjlen⟩ := cellAt_some_bounds hs
  have hcenter : mwVal g sR sC h i j h h = some v := by
    unfold mwVal
    have hni : (i : ℤ) + (h : ℤ) - (h : ℤ) = (i : ℤ) := by ring
    have hnj : (j : ℤ) + (h : ℤ) - (h : ℤ) = (j : ℤ) := by ring
    rw [hni, hnj]
    have hbounds : inWindowBounds g sR sC i (i : ℤ) (j : ℤ) = true := by
      unfold inWindowBounds
      simp only [Bool.and_eq_true, decide_eq_true_iff]
      refine ⟨⟨⟨?_, ?_⟩, ?_⟩, ?_⟩ <;> push_cast <;> omega
    simp only [hbounds, if_true]
    simpa [cellAtZ] using hv
  have hmem : v ∈ maWindowVals g sR sC h i j := by
    unfold maWindowVals
    rw [List.mem_flatMap]
    refine ⟨h, List.mem_range.mpr (by omega), ?_⟩
    rw [List.mem_filterMap]
    exact ⟨h, List.mem_range.mpr (by omega), hcenter⟩
  have hcount : 0 < (maWindow g sR sC h i j).2 := by
    rw [maWindow_eq_vals]
    exact List.length_pos.mpr (List.ne_nil_of_mem hmem)
  refine ⟨hcount, ?_⟩
  have hf : maCellF g sR sC h i j = some (jsToFixed
      ((maWindow g sR sC h i j).1 / ((maWindow g sR sC h i j).2 : ℚ))
      (max (smootherDecimals (rawCell g i j)) 2)) := by
    unfold maCellF
    rw [hv]
    simp only []
    rw [if_pos hcount]
  show cellAt (cellWrite g sR sC (maCellF g sR sC h)) i j = _
  rw [cellAt_cellWrite, if_pos ⟨hi, hj, hjlen, by rw [hf]; rfl⟩, hf]

/-- Witness for C10 on the single-cell grid [["7"]] with windowSize 3. -/
theorem c10_ma_numeric_cells_always_rewritten_witness :
    0 < (maWindow [["7"]] (maskStart false) (maskStart false) (normWindow 3 / 2) 0 0).2 ∧
      cellAt (applyMovingAverage [["7"]] 3 false false) 0 0 =
        some (jsToFixed
          ((maWindow [["7"]] (maskStart false) (maskStart false) (normWindow 3 / 2) 0 0).1 /
            ((maWindow [["7"]] (maskStart false) (maskStart false) (normWindow 3 / 2) 0 0).2 : ℚ))
          (max (smootherDecimals (rawCell [["7"]] 0 0)) 2)) :=
  c10_ma_numeric_cells_always_rewritten [["7"]] 3 false false 0 0 7
    (by norm_num) (by decide) (by decide) (by with_unfolding_all decide)

/-! ## C1: the directional search of autoFillBlanks -/

open AutoTable

theorem parse_none_of_isEmpty (c : Option String) (h : isEmptyCell c = true) :
    parseNumericValue c = none := by
  cases c with
  | none => rfl
  | some s =>
    have h2 : (if s = "" then true
        else decide (cleanedText s = []) ||
          decide (cleanedText s = ['&', 'n', 'b', 's', 'p', ';'])) = true := h
    show (if s = "" then none else jsParseFloat (cleanedText s)) = none
    by_cases hs : s = ""
    · rw [if_pos hs]
    · rw [if_neg hs]
      rw [if_neg hs] at h2
      simp only [Bool.or_eq_true, decide_eq_true_eq] at h2
      rcases h2 with h2 | h2 <;> rw [h2] <;> with_unfolding_all decide

/-- The in-region prefix of the ray walked by `findNearest`, with the same
fuel as the implementation: positions from `(r, c)` onward in direction
`(dR, dC)` until the first one outside the region. -/
def rayPositionsAux (g : Grid) (sR sC : Nat) (dR dC : ℤ) :
    Nat → ℤ → ℤ → List (ℤ × ℤ)
  | 0, _, _ => []
  | fuel + 1, r, c =>
    if inRayBounds g sR sC r c then
      (r, c) :: rayPositionsAux g sR sC dR dC fuel (r + dR) (c + dC)
    else []

/-- The directional search as the amended claim words it: among the ray
positions inside the region, the FIRST one whose cell parses numerically —
blank cells and non-blank non-numeric labels alike are walked over, and a
label does not block the direction.  Modelled from the spec's amended
wording, for comparison with the source's `findNearest`. -/
def specFindNearest (g : Grid) (sR sC row col : Nat) (dR dC : ℤ) : Option NearInfo :=
  ((rayPositionsAux g sR sC dR dC (rayFuel g) ((row : ℤ) + dR) ((col : ℤ) + dC)).filterMap
    (fun p => (parseNumericValue (cellAtZ g p.1 p.2)).map (fun v =>
      ⟨v, (p.1 - (row : ℤ)).natAbs + (p.2 - (col : ℤ)).natAbs,
        fillDecimalPlaces ((cellAtZ g p.1 p.2).getD "")⟩))).head?

theorem findNearestAux_eq_spec (g : Grid) (sR sC row col : Nat) (dR dC : ℤ) :
    ∀ (fuel : Nat) (r c : ℤ),
      findNearestAux g sR sC row col dR dC fuel r c =
        ((rayPositionsAux g sR sC dR dC fuel r c).filterMap
          (fun p => (parseNumericValue (cellAtZ g p.1 p.2)).map (fun v =>
            ⟨v, (p.1 - (row : ℤ)).natAbs + (p.2 - (col : ℤ)).natAbs,
              fillDecimalPlaces ((cellAtZ g p.1 p.2).getD "")⟩))).head? := by
  intro fuel
  induction fuel with
  | zero => intro r c; rfl
  | succ fuel ih =>
    intro r c
    show (if inRayBounds g sR sC r c then
        (if ¬ isEmptyCell (cellAtZ g r c) then
          match parseNumericValue (cellAtZ g r c) with
          | some val =>
            some ⟨val, (r - (row : ℤ)).natAbs + (c - (col : ℤ)).natAbs,
              fillDecimalPlaces ((cellAtZ g r c).getD "")⟩
          | none => findNearestAux g sR sC row col dR dC fuel (r + dR) (c + dC)
        else findNearestAux g sR sC row col dR dC fuel (r + dR) (c + dC))
      else none) =
      ((if inRayBounds g sR sC r c then
          (r, c) :: rayPositionsAux g sR sC dR dC fuel (r + dR) (c + dC)
        else []).filterMap
        (fun p => (parseNumericValue (cellAtZ g p.1 p.2)).map (fun v =>
          ⟨v, (p.1 - (row : ℤ)).natAbs + (p.2 - (col : ℤ)).natAbs,
            fillDecimalPlaces ((cellAtZ g p.1 p.2).getD "")⟩))).head?
    by_cases hb : inRayBounds g sR sC r c = true
    · rw [if_pos hb, if_pos hb]
      by_cases he : isEmptyCell (cellAtZ g r c) = true
      · rw [if_neg (by simpa using he)]
        rw [List.filterMap_cons_none (by rw [parse_none_of_isEmpty _ he]; rfl)]
        exact ih (r + dR) (c + dC)
      · rw [if_pos (by simpa using he)]
        cases hp : parseNumericValue (cellAtZ g r c) with
        | some val =>
          rw [List.filterMap_cons_some (show _ = some _ by rw [hp]; rfl)]
          rfl
        | none =>
          rw [List.filterMap_cons_none (by rw [hp]; rfl)]
          exact ih (r + dR) (c + dC)
    · rw [if_neg hb, if_neg hb]
      rfl

/-- C1 amended: for every grid, mask, start cell and direction, findNearest
returns exactly the first numerically-parseable cell along the in-region
ray (with its value, Manhattan distance and decimal count), skipping blank
and non-blank non-numeric cells alike; no cell blocks the search, and the
direction contributes nothing only when no numeric cell lies on the ray. -/
theorem c1_direction_search_eq_first_numeric_on_ray (g : Grid)
    (sR sC row col : Nat) (dR dC : ℤ) :
    findNearest g sR sC row col dR dC = specFindNearest g sR sC row col dR dC :=
  findNearestAux_eq_spec g sR sC row col dR dC (rayFuel g) _ _

/-- C1 counterexample: in [["", "x", "5"]] the rightward search from the
blank cell (0,0) meets the non-blank, non-numeric label "x" first, yet
returns the numeric cell "5" at Manhattan distance 2 beyond it (and
autoFillBlanks fills the blank accordingly): the search DOES continue past
a non-blank, non-numeric cell, contrary to the claim. -/
theorem c1_counterexample_label_does_not_block :
    isEmptyCell (some "x") = false ∧ parseNumericValue (some "x") = none ∧
      findNearest [["", "x", "5"]] 0 0 0 0 0 1 = some ⟨5, 2, 0⟩ ∧
      autoFillBlanks [["", "x", "5"]] false false = [["5.0", "x", "5"]] := by
  with_unfolding_all decide

/-! ## C4: rendered decimal places -/

open AutoTable

theorem parse_some_bounds {g : Grid} {i j : Nat} {v : ℚ}
    (hv : parseNumericValue (cellAt g i j) = some v) :
    i < g.length ∧ j < rowLen g i := by
  cases hc : cellAt g i j with
  | none =>
    rw [hc] at hv
    exact absurd hv (by simp [parseNumericValue])
  | some s => exact cellAt_some_bounds hc

theorem cellF_write {g : Grid} {sR sC : Nat} {f : Nat → Nat → Option String}
    {i j : Nat} {t : String} (hi : sR ≤ i) (hj : sC ≤ j) (hjl : j < rowLen g i)
    (hf : f i j = some t) : cellAt (cellWrite g sR sC f) i j = some t := by
  rw [cellAt_cellWrite, if_pos ⟨hi, hj, hjl, by rw [hf]; rfl⟩, hf]

/-- C4 amended: every in-mask numeric cell rewritten by any of the three
smoothing operations is rendered with jsToFixed at a decimal-places count
of max(d, 2), where d is the code's computation `smootherDecimals` on the
RAW cell text (the tag-stripped length of the raw text's segment between
the first dot and the next dot or end; 0 when the raw text has no dot) —
not the parser contract's decimalPlaces of the stripped text. -/
theorem c4_smoothers_render_with_raw_text_decimals (g : Grid) (w : Nat)
    (kexp : ℚ → ℚ) (sigma : ℚ) (b1 b2 : Bool) :
    (∀ i j t, maskStart b1 ≤ i → maskStart b2 ≤ j →
      maCellF g (maskStart b1) (maskStart b2) (normWindow w / 2) i j = some t →
      cellAt (applyMovingAverage g w b1 b2) i j = some t ∧
        t = jsToFixed
          ((maWindow g (maskStart b1) (maskStart b2) (normWindow w / 2) i j).1 /
            ((maWindow g (maskStart b1) (maskStart b2) (normWindow w / 2) i j).2 : ℚ))
          (max (smootherDecimals (rawCell g i j)) 2)) ∧
    (∀ i j t, maskStart b1 ≤ i → maskStart b2 ≤ j →
      gaussCellF kexp g (maskStart b1) (maskStart b2) sigma i j = some t →
      cellAt (applyGaussianSmoothing kexp g sigma b1 b2) i j = some t ∧
        t = jsToFixed
          ((gaussAcc kexp g (maskStart b1) (maskStart b2) sigma i j).1 /
            (gaussAcc kexp g (maskStart b1) (maskStart b2) sigma i j).2)
          (max (smootherDecimals (rawCell g i j)) 2)) ∧
    (∀ i j t v, maskStart b1 ≤ i → maskStart b2 ≤ j →
      parseNumericValue (cellAt g i j) = some v →
      biCellF g (maskStart b1) (maskStart b2) i j = some t →
      cellAt (applyBilinearInterpolation g b1 b2) i j = some t ∧
        t = jsToFixed
          ((v + (biNeighbors g (maskStart b1) (maskStart b2) i j).sum) /
            (((biNeighbors g (maskStart b1) (maskStart b2) i j).length : ℚ) + 1))
          (max (smootherDecimals (rawCell g i j)) 2)) := by
  refine ⟨?_, ?_, ?_⟩
  · intro i j t hi hj hf
    have hparse : ∃ pv, parseNumericValue (cellAt g i j) = some pv := by
      unfold maCellF at hf
      cases hp : parseNumericValue (cellAt g i j) with
      | none => rw [hp] at hf; exact absurd hf (by simp)
      | some pv => exact ⟨pv, rfl⟩
    obtain ⟨pv, hp⟩ := hparse
    have hjl := (parse_some_bounds hp).2
    have ht : t = jsToFixed
        ((maWindow g (maskStart b1) (maskStart b2) (normWindow w / 2) i j).1 /
          ((maWindow g (maskStart b1) (maskStart b2) (normWindow w / 2) i j).2 : ℚ))
        (max (smootherDecimals (rawCell g i j)) 2) := by
      unfold maCellF at hf
      rw [hp] at hf
      simp only [] at hf
      by_cases hc : 0 < (maWindow g (maskStart b1) (maskStart b2) (normWindow w / 2) i j).2
      · rw [if_pos hc] at hf
        exact (Option.some.inj hf).symm
      · rw [if_neg hc] at hf
        exact absurd hf (by simp)
    exact ⟨cellF_write hi hj hjl hf, ht⟩
  · intro i j t hi hj hf
    have hparse : ∃ pv, parseNumericValue (cellAt g i j) = some pv := by
      unfold gaussCellF at hf
      cases hp : parseNumericValue (cellAt g i j) with
      | none => rw [hp] at hf; exact absurd hf (by simp)
      | some pv => exact ⟨pv, rfl⟩
    obtain ⟨pv, hp⟩ := hparse
    have hjl := (parse_some_bounds hp).2
    have ht : t = jsToFixed
        ((gaussAcc kexp g (maskStart b1) (maskStart b2) sigma i j).1 /
          (gaussAcc kexp g (maskStart b1) (maskStart b2) sigma i j).2)
        (max (smootherDecimals (rawCell g i j)) 2) := by
      unfold gaussCellF at hf
      rw [hp] at hf
      simp only [] at hf
      by_cases hc : 0 < (gaussAcc kexp g (maskStart b1) (maskStart b2) sigma i j).2
      · rw [if_pos hc] at hf
        exact (Option.some.inj hf).symm
      · rw [if_neg hc] at hf
        exact absurd hf (by simp)
    exact ⟨cellF_write hi hj hjl hf, ht⟩
  · intro i j t v hi hj hv hf
    have hjl := (parse_some_bounds hv).2
    have ht : t = jsToFixed
        ((v + (biNeighbors g (maskStart b1) (maskStart b2) i j).sum) /
          (((biNeighbors g (maskStart b1) (maskStart b2) i j).length : ℚ) + 1))
        (max (smootherDecimals (rawCell g i j)) 2) := by
      unfold biCellF at hf
      rw [hv] at hf
      simp only [] at hf
      by_cases hc : 0 < (biNeighbors g (maskStart b1) (maskStart b2) i j).length
      · rw [if_pos hc] at hf
        exact (Option.some.inj hf).symm
      · rw [if_neg hc] at hf
        exact absurd hf (by simp)
    exact ⟨cellF_write hi hj hjl hf, ht⟩

/-- C4 counterexample: for the cell "1.2.3" (which parses as 1.2), the
parser-contract decimalPlaces of the claim is 3 (substring "2.3" after the
first dot), so the claim predicts rendering "1.200"; the code instead uses
only the segment between the first two dots ("2", length 1) and renders
"1.20". -/
theorem c4_counterexample_decimals_not_from_stripped_text :
    cellAt (applyMovingAverage [["1.2.3"]] 3 false false) 0 0 = some "1.20" ∧
      specDecimalPlaces "1.2.3" = 3 ∧
      jsToFixed (6/5) (max (specDecimalPlaces "1.2.3") 2) = "1.200" ∧
      cellAt (applyMovingAverage [["1.2.3"]] 3 false false) 0 0 ≠
        some (jsToFixed (6/5) (max (specDecimalPlaces "1.2.3") 2)) := by
  with_unfolding_all decide

set_option maxRecDepth 40000 in
/-- Witness for C4 amended: one concrete rewritten cell per smoother. -/
theorem c4_smoothers_render_with_raw_text_decimals_witness :
    (cellAt (applyMovingAverage [["1.5"]] 3 false false) 0 0 = some "1.50" ∧
      "1.50" = jsToFixed
        ((maWindow [["1.5"]] (maskStart false) (maskStart false) (normWindow 3 / 2) 0 0).1 /
          ((maWindow [["1.5"]] (maskStart false) (maskStart false) (normWindow 3 / 2) 0 0).2 : ℚ))
        (max (smootherDecimals (rawCell [["1.5"]] 0 0)) 2)) ∧
    (cellAt (applyGaussianSmoothing (fun _ => 1) [["1.5"]] 1 false false) 0 0 = some "1.50" ∧
      "1.50" = jsToFixed
        ((gaussAcc (fun _ => 1) [["1.5"]] (maskStart false) (maskStart false) 1 0 0).1 /
          (gaussAcc (fun _ => 1) [["1.5"]] (maskStart false) (maskStart false) 1 0 0).2)
        (max (smootherDecimals (rawCell [["1.5"]] 0 0)) 2)) ∧
    (cellAt (applyBilinearInterpolation [["1.5", "2.5"]] false false) 0 0 = some "2.00" ∧
      "2.00" = jsToFixed
        (((3/2 : ℚ) + (biNeighbors [["1.5", "2.5"]] (maskStart false) (maskStart false) 0 0).sum) /
          (((biNeighbors [["1.5", "2.5"]] (maskStart false) (maskStart false) 0 0).length : ℚ) + 1))
        (max (smootherDecimals (rawCell [["1.5", "2.5"]] 0 0)) 2)) :=
  ⟨(c4_smoothers_render_with_raw_text_decimals [["1.5"]] 3 (fun _ => 1) 1 false false).1 0 0 "1.50" (by decide) (by decide)
      (by with_unfolding_all decide),
    (c4_smoothers_render_with_raw_text_decimals [["1.5"]] 3 (fun _ => 1) 1 false false).2.1 0 0 "1.50" (by decide) (by decide)
      (by with_unfolding_all decide),
    (c4_smoothers_render_with_raw_text_decimals [["1.5", "2.5"]] 3 (fun _ => 1) 1 false false).2.2 0 0 "2.00" (3/2)
      (by decide) (by decide) (by with_unfolding_all decide) (by with_unfolding_all decide)⟩

/-! ## C5: the moving-average window -/

open AutoTable

theorem my_filterMap_congr {α β : Type} {l : List α} {f f2 : α → Option β}
    (h : ∀ x ∈ l, f x = f2 x) : l.filterMap f = l.filterMap f2 := by
  induction l with
  | nil => rfl
  | cons x xs ih =>
    cases hfx : f x with
    | none =>
      rw [List.filterMap_cons_none hfx,
        List.filterMap_cons_none (by rw [← h x (List.mem_cons_self ..), hfx]),
        ih (fun y hy => h y (List.mem_cons_of_mem _ hy))]
    | some b =>
      rw [List.filterMap_cons_some hfx,
        List.filterMap_cons_some (by rw [← h x (List.mem_cons_self ..), hfx]),
        ih (fun y hy => h y (List.mem_cons_of_mem _ hy))]

theorem my_flatMap_congr {α β : Type} {l : List α} {f f2 : α → List β}
    (h : ∀ x ∈ l, f x = f2 x) : l.flatMap f = l.flatMap f2 := by
  induction l with
  | nil => rfl
  | cons x xs ih =>
    rw [List.flatMap_cons, List.flatMap_cons, h x (List.mem_cons_self ..),
      ih (fun y hy => h y (List.mem_cons_of_mem _ hy))]

theorem my_flatMap_map {α γ β : Type} (f : α → γ) (g : γ → List β) (l : List α) :
    (l.map f).flatMap g = l.flatMap (fun x => g (f x)) := by
  induction l with
  | nil => rfl
  | cons x xs ih => rw [List.map_cons, List.flatMap_cons, List.flatMap_cons, ih]

theorem my_filterMap_map {α γ β : Type} (f : α → γ) (g : γ → Option β) (l : List α) :
    (l.map f).filterMap g = l.filterMap (fun x => g (f x)) := by
  induction l with
  | nil => rfl
  | cons x xs ih =>
    cases hgf : g (f x) with
    | none => simp only [List.map_cons, List.filterMap_cons, hgf, ih]
    | some b => simp only [List.map_cons, List.filterMap_cons, hgf, ih]

/-- Every row has the length of row 0. -/
def isRect (g : Grid) : Bool := g.all (fun row => decide (row.length = rowLen g 0))

theorem rect_rowLen {g : Grid} (hr : isRect g = true) {i : Nat} (hi : i < g.length) :
    rowLen g i = rowLen g 0 := by
  unfold isRect at hr
  rw [List.all_eq_true] at hr
  have hmem := hr (g[i]) (List.getElem_mem hi)
  rw [decide_eq_true_eq] at hmem
  unfold rowLen
  rw [List.getElem?_eq_getElem hi]
  simpa using hmem

def intRange (lo hi : ℤ) : List ℤ :=
  (List.range (hi + 1 - lo).toNat).map (fun k : Nat => lo + (k : ℤ))

/-- The window of the claim's words: the numerically-parseable cells of
the grid inside the mask within Chebyshev distance `h` of `(i, j)`, in
row-major order — each row bounded by its OWN length.  Modelled from the
spec for comparison with the code's window. -/
def specWindowVals (g : Grid) (sR sC h i j : Nat) : List ℚ :=
  (intRange ((i : ℤ) - (h : ℤ)) ((i : ℤ) + (h : ℤ))).flatMap (fun ni =>
    (intRange ((j : ℤ) - (h : ℤ)) ((j : ℤ) + (h : ℤ))).filterMap (fun nj =>
      if (sR : ℤ) ≤ ni ∧ ni < (g.length : ℤ) ∧ (sC : ℤ) ≤ nj ∧
          nj < (rowLen g ni.toNat : ℤ) ∧
          max (ni - (i : ℤ)).natAbs (nj - (j : ℤ)).natAbs ≤ h then
        parseNumericValue (cellAtZ g ni nj)
      else none))

theorem maWindowVals_eq_spec (g : Grid) (sR sC h i j : Nat)
    (hrect : isRect g = true) (hi : i < g.length) :
    specWindowVals g sR sC h i j = maWindowVals g sR sC h i j := by
  unfold specWindowVals maWindowVals
  have hrow : intRange ((i : ℤ) - (h : ℤ)) ((i : ℤ) + (h : ℤ)) =
      (List.range (2 * h + 1)).map (fun a : Nat => (i : ℤ) + (a : ℤ) - (h : ℤ)) := by
    unfold intRange
    have hn : (((i : ℤ) + (h : ℤ) + 1 - ((i : ℤ) - (h : ℤ))).toNat) = 2 * h + 1 := by
      omega
    rw [hn]
    have hfun : (fun k : Nat => (i : ℤ) - (h : ℤ) + (k : ℤ)) =
        (fun a : Nat => (i : ℤ) + (a : ℤ) - (h : ℤ)) := by
      funext k
      ring
    rw [hfun]
  have hcol : intRange ((j : ℤ) - (h : ℤ)) ((j : ℤ) + (h : ℤ)) =
      (List.range (2 * h + 1)).map (fun b : Nat => (j : ℤ) + (b : ℤ) - (h : ℤ)) := by
    unfold intRange
    have hn : (((j : ℤ) + (h : ℤ) + 1 - ((j : ℤ) - (h : ℤ))).toNat) = 2 * h + 1 := by
      omega
    rw [hn]
    have hfun : (fun k : Nat => (j : ℤ) - (h : ℤ) + (k : ℤ)) =
        (fun b : Nat => (j : ℤ) + (b : ℤ) - (h : ℤ)) := by
      funext k
      ring
    rw [hfun]
  rw [hrow, hcol, my_flatMap_map]
  apply my_flatMap_congr
  intro a ha
  rw [my_filterMap_map]
  apply my_filterMap_congr
  intro b hb
  have ha2 : a < 2 * h + 1 := List.mem_range.mp ha
  have hb2 : b < 2 * h + 1 := List.mem_range.mp hb
  unfold mwVal
  simp only []
  by_cases hc : (sR : ℤ) ≤ (i : ℤ) + (a : ℤ) - (h : ℤ) ∧
      (i : ℤ) + (a : ℤ) - (h : ℤ) < (g.length : ℤ) ∧
      (sC : ℤ) ≤ (j : ℤ) + (b : ℤ) - (h : ℤ) ∧
      (j : ℤ) + (b : ℤ) - (h : ℤ) < (rowLen g i : ℤ)
  · obtain ⟨h1, h2, h3, h4⟩ := hc
    have hbool : inWindowBounds g sR sC i ((i : ℤ) + (a : ℤ) - (h : ℤ))
        ((j : ℤ) + (b : ℤ) - (h : ℤ)) = true := by
      unfold inWindowBounds
      simp only [Bool.and_eq_true, decide_eq_true_eq]
      exact ⟨⟨⟨h1, h2⟩, h3⟩, h4⟩
    have hnt : ((i : ℤ) + (a : ℤ) - (h : ℤ)).toNat < g.length := by omega
    have hnn : rowLen g (((i : ℤ) + (a : ℤ) - (h : ℤ)).toNat) = rowLen g i := by
      rw [rect_rowLen hrect hnt, rect_rowLen hrect hi]
    rw [if_pos ⟨h1, h2, h3, by rw [hnn]; exact h4, by omega⟩]
    rw [hbool]
    simp only [if_true]
  · have hspec : ¬((sR : ℤ) ≤ (i : ℤ) + (a : ℤ) - (h : ℤ) ∧
        (i : ℤ) + (a : ℤ) - (h : ℤ) < (g.length : ℤ) ∧
        (sC : ℤ) ≤ (j : ℤ) + (b : ℤ) - (h : ℤ) ∧
        (j : ℤ) + (b : ℤ) - (h : ℤ) <
          (rowLen g (((i : ℤ) + (a : ℤ) - (h : ℤ)).toNat) : ℤ) ∧
        max ((i : ℤ) + (a : ℤ) - (h : ℤ) - (i : ℤ)).natAbs
          ((j : ℤ) + (b : ℤ) - (h : ℤ) - (j : ℤ)).natAbs ≤ h) := by
      rintro ⟨h1, h2, h3, h4, h5⟩
      apply hc
      have hnt : ((i : ℤ) + (a : ℤ) - (h : ℤ)).toNat < g.length := by omega
      rw [rect_rowLen hrect hnt, ← rect_rowLen hrect hi] at h4
      exact ⟨h1, h2, h3, h4⟩
    rw [if_neg hspec]
    have hbool : inWindowBounds g sR sC i ((i : ℤ) + (a : ℤ) - (h : ℤ))
        ((j : ℤ) + (b : ℤ) - (h : ℤ)) = false := by
      cases hbv : inWindowBounds g sR sC i ((i : ℤ) + (a : ℤ) - (h : ℤ))
          ((j : ℤ) + (b : ℤ) - (h : ℤ)) with
      | false => rfl
      | true =>
        exfalso
        unfold inWindowBounds at hbv
        simp only [Bool.and_eq_true, decide_eq_true_eq] at hbv
        exact hc ⟨hbv.1.1.1, hbv.1.1.2, hbv.1.2, hbv.2⟩
    rw [hbool]
    simp only [Bool.false_eq_true, if_false]

/-- C5 amended: for every RECTANGULAR grid, mask and windowSize,
applyMovingAverage first normalizes an even windowSize to the next odd one
and then rewrites each in-mask numeric cell (i,j) with the arithmetic mean
of all numerically-parseable in-mask cells within Chebyshev distance
floor(windowSize/2), rendered with the code's decimal count.  (On ragged
grids the code bounds every window column by the CENTER row's length, so
the claim's quantification over every grid fails — see the
counterexample.) -/
theorem c5_moving_average_is_masked_chebyshev_mean (g : Grid) (w : Nat)
    (b1 b2 : Bool) (i j : Nat) (v : ℚ)
    (hrect : isRect g = true)
    (hi : maskStart b1 ≤ i) (hj : maskStart b2 ≤ j)
    (hv : parseNumericValue (cellAt g i j) = some v) :
    cellAt (applyMovingAverage g w b1 b2) i j =
      some (jsToFixed
        ((specWindowVals g (maskStart b1) (maskStart b2) (normWindow w / 2) i j).sum /
          ((specWindowVals g (maskStart b1) (maskStart b2) (normWindow w / 2) i j).length : ℚ))
        (max (smootherDecimals (rawCell g i j)) 2)) := by
  obtain ⟨hilen, hjlen⟩ := parse_some_bounds hv
  set sR := maskStart b1
  set sC := maskStart b2
  set h := normWindow w / 2 with hdef
  have hcenter : mwVal g sR sC h i j h h = some v := by
    unfold mwVal
    have hni : (i : ℤ) + (h : ℤ) - (h : ℤ) = (i : ℤ) := by ring
    have hnj : (j : ℤ) + (h : ℤ) - (h : ℤ) = (j : ℤ) := by ring
    rw [hni, hnj]
    have hbounds : inWindowBounds g sR sC i (i : ℤ) (j : ℤ) = true := by
      unfold inWindowBounds
      simp only [Bool.and_eq_true, decide_eq_true_iff]
      refine ⟨⟨⟨?_, ?_⟩, ?_⟩, ?_⟩ <;> push_cast <;> omega
    simp only [hbounds, if_true]
    simpa [cellAtZ] using hv
  have hmem : v ∈ maWindowVals g sR sC h i j := by
    unfold maWindowVals
    rw [List.mem_flatMap]
    refine ⟨h, List.mem_range.mpr (by omega), ?_⟩
    rw [List.mem_filterMap]
    exact ⟨h, List.mem_range.mpr (by omega), hcenter⟩
  have hcount : 0 < (maWindow g sR sC h i j).2 := by
    rw [maWindow_eq_vals]
    exact List.length_pos.mpr (List.ne_nil_of_mem hmem)
  have hf : maCellF g sR sC h i j = some (jsToFixed
      ((maWindow g sR sC h i j).1 / ((maWindow g sR sC h i j).2 : ℚ))
      (max (smootherDecimals (rawCell g i j)) 2)) := by
    unfold maCellF
    rw [hv]
    simp only []
    rw [if_pos hcount]
  have heq := maWindowVals_eq_spec g sR sC h i j hrect hilen
  show cellAt (cellWrite g sR sC (maCellF g sR sC h)) i j = _
  rw [cellF_write hi hj hjlen hf, maWindow_eq_vals, heq]

/-- C5 counterexample: on the ragged grid [["1"], ["2", "3"]] the in-mask
Chebyshev-1 window of cell (0,0) contains 1, 2 and 3 (mean 2, rendered
"2.00"), but the code bounds window columns by row 0's length and computes
the mean of 1 and 2 only, writing "1.50". -/
theorem c5_counterexample_ragged_column_bound :
    isRect [["1"], ["2", "3"]] = false ∧
      cellAt (applyMovingAverage [["1"], ["2", "3"]] 3 false false) 0 0 = some "1.50" ∧
      specWindowVals [["1"], ["2", "3"]] 0 0 1 0 0 = [1, 2, 3] ∧
      cellAt (applyMovingAverage [["1"], ["2", "3"]] 3 false false) 0 0 ≠
        some (jsToFixed ((specWindowVals [["1"], ["2", "3"]] 0 0 1 0 0).sum /
          ((specWindowVals [["1"], ["2", "3"]] 0 0 1 0 0).length : ℚ))
          (max (smootherDecimals (rawCell [["1"], ["2", "3"]] 0 0)) 2)) := by
  with_unfolding_all decide

/-- Witness for C5 amended on a rectangular 2x2 grid. -/
theorem c5_moving_average_is_masked_chebyshev_mean_witness :
    cellAt (applyMovingAverage [["1", "2"], ["3", "4"]] 3 false false) 0 0 =
      some (jsToFixed
        ((specWindowVals [["1", "2"], ["3", "4"]] (maskStart false) (maskStart false)
            (normWindow 3 / 2) 0 0).sum /
          ((specWindowVals [["1", "2"], ["3", "4"]] (maskStart false) (maskStart false)
            (normWindow 3 / 2) 0 0).length : ℚ))
        (max (smootherDecimals (rawCell [["1", "2"], ["3", "4"]] 0 0)) 2)) :=
  c5_moving_average_is_masked_chebyshev_mean [["1", "2"], ["3", "4"]] 3 false false 0 0 1 (by decide) (by decide) (by decide)
    (by with_unfolding_all decide)

end AutoTable
